import Mathlib

/-!
Verification development for the acquisition pipeline of a crate-download
tool.  The Lean definitions below are shallow embeddings of the program's
source files (a version resolver, a cache probe, a bounded fetcher, a
SHA-256 integrity check and a path-safe tar extractor), together with the
parts of its external semver dependency that the program's behaviour
depends on (version/requirement parsing, precedence ordering, requirement
matching and display).  Machine integers are modelled as Nat with explicit
bounds where overflow matters, fallible operations return Option or Except,
and filesystem or network effects are modelled as explicit event traces
over a world record.
-/

open Batteries (OrientedCmp TransCmp)

/-- Lexicographic comparison of two lists under an element comparator:
elements are compared pointwise, a strict prefix compares less.  This is the
shape of the element-by-element comparison loops in the semver crate's
Ord implementations for pre-release and build identifier sequences. -/
def cmpList (c : α → α → Ordering) : List α → List α → Ordering
  | [], [] => .eq
  | [], _ :: _ => .lt
  | _ :: _, [] => .gt
  | x :: xs, y :: ys => (c x y).then (cmpList c xs ys)

theorem cmpList_swap (c : α → α → Ordering) [OrientedCmp c] :
    ∀ (a b : List α), (cmpList c a b).swap = cmpList c b a
  | [], [] => rfl
  | [], _ :: _ => rfl
  | _ :: _, [] => rfl
  | x :: xs, y :: ys => by
    simp only [cmpList, Ordering.swap_then, OrientedCmp.symm, cmpList_swap c xs ys]

instance (c : α → α → Ordering) [OrientedCmp c] : OrientedCmp (cmpList c) where
  symm a b := cmpList_swap c a b

theorem cmpList_ne_gt_nil (c : α → α → Ordering) (cs : List α) :
    cmpList c [] cs ≠ .gt := by
  cases cs <;> simp [cmpList]

theorem cmpList_le_trans (c : α → α → Ordering) [TransCmp c] :
    ∀ {as bs cs : List α}, cmpList c as bs ≠ .gt → cmpList c bs cs ≠ .gt →
      cmpList c as cs ≠ .gt := by
  intro as
  induction as with
  | nil => intro bs cs _ _; exact cmpList_ne_gt_nil c cs
  | cons x xs ih =>
    intro bs cs h1 h2
    match bs, cs with
    | [], _ => exact absurd rfl h1
    | _ :: _, [] => exact absurd rfl h2
    | y :: ys, z :: zs =>
      simp only [cmpList, ne_eq, Ordering.then_eq_gt, not_or, not_and] at h1 h2 ⊢
      refine ⟨TransCmp.le_trans h1.1 h2.1, fun e1 => ?_⟩
      cases ab : c x y with
      | gt => exact absurd ab h1.1
      | eq =>
        have hyz : c y z = .eq := by rw [← TransCmp.cmp_congr_left ab]; exact e1
        exact ih (h1.2 ab) (h2.2 hyz)
      | lt =>
        have hz : c z y = .lt := by rw [← TransCmp.cmp_congr_left e1]; exact ab
        exact absurd (OrientedCmp.cmp_eq_gt.mpr hz) h2.1

instance (c : α → α → Ordering) [TransCmp c] : TransCmp (cmpList c) where
  le_trans := cmpList_le_trans c

/-- Transport a transitive comparator along a key function. -/
theorem transCmp_comap {β : Type _} {c : β → β → Ordering} (h : TransCmp c) (f : α → β) :
    TransCmp (fun a b => c (f a) (f b)) :=
  { symm := fun a b => h.symm (f a) (f b),
    le_trans := fun h1 h2 => h.le_trans h1 h2 }

/-- One insertion step of a stable insertion sort ascending under a
comparator: the new element is placed before the first element it does not
compare greater than. -/
def insertByCmp (c : α → α → Ordering) (x : α) : List α → List α
  | [] => [x]
  | y :: ys =>
    match c x y with
    | .gt => y :: insertByCmp c x ys
    | _ => x :: y :: ys

/-- Stable sort ascending under a comparator; models Vec::sort_by, which is
a stable sort by a user comparator. -/
def sortByCmp (c : α → α → Ordering) : List α → List α
  | [] => []
  | x :: xs => insertByCmp c x (sortByCmp c xs)

theorem mem_insertByCmp {c : α → α → Ordering} {x z : α} :
    ∀ {l : List α}, z ∈ insertByCmp c x l ↔ z = x ∨ z ∈ l := by
  intro l
  induction l with
  | nil => simp [insertByCmp]
  | cons y ys ih =>
    cases hcmp : c x y <;> simp [insertByCmp, hcmp, ih] <;> tauto

theorem mem_sortByCmp {c : α → α → Ordering} {z : α} :
    ∀ {l : List α}, z ∈ sortByCmp c l ↔ z ∈ l := by
  intro l
  induction l with
  | nil => simp [sortByCmp]
  | cons x xs ih => simp [sortByCmp, mem_insertByCmp, ih]

/-- The non-strict order induced by a comparator. -/
def cmpLeRel (c : α → α → Ordering) (a b : α) : Prop := c a b ≠ .gt

theorem pairwise_insertByCmp {c : α → α → Ordering} [TransCmp c] {x : α} :
    ∀ {l : List α}, l.Pairwise (cmpLeRel c) → (insertByCmp c x l).Pairwise (cmpLeRel c) := by
  intro l
  induction l with
  | nil => intro _; simp [insertByCmp, List.Pairwise]
  | cons y ys ih =>
    intro h
    rw [List.pairwise_cons] at h
    obtain ⟨hy, hys⟩ := h
    cases hcmp : c x y with
    | gt =>
      simp only [insertByCmp, hcmp]
      rw [List.pairwise_cons]
      refine ⟨fun z hz => ?_, ih hys⟩
      rcases mem_insertByCmp.mp hz with hzx | hzys
      · subst hzx
        have hlt : c y z = .lt := OrientedCmp.cmp_eq_gt.mp hcmp
        simp [cmpLeRel, hlt]
      · exact hy z hzys
    | lt =>
      simp only [insertByCmp, hcmp]
      rw [List.pairwise_cons]
      refine ⟨fun z hz => ?_, List.pairwise_cons.mpr ⟨hy, hys⟩⟩
      rcases List.mem_cons.mp hz with hzy | hzys
      · subst hzy; simp [cmpLeRel, hcmp]
      · exact TransCmp.le_trans (x := x) (by simp [hcmp]) (hy z hzys)
    | eq =>
      simp only [insertByCmp, hcmp]
      rw [List.pairwise_cons]
      refine ⟨fun z hz => ?_, List.pairwise_cons.mpr ⟨hy, hys⟩⟩
      rcases List.mem_cons.mp hz with hzy | hzys
      · subst hzy; simp [cmpLeRel, hcmp]
      · exact TransCmp.le_trans (x := x) (by simp [hcmp]) (hy z hzys)

theorem pairwise_sortByCmp {c : α → α → Ordering} [TransCmp c] (l : List α) :
    (sortByCmp c l).Pairwise (cmpLeRel c) := by
  induction l with
  | nil => simp [sortByCmp]
  | cons x xs ih => exact pairwise_insertByCmp ih

/-- The head of the sorted list compares not-greater than every element of
the input list: first element of a descending-by-reversed-comparator sort is
a maximum. -/
theorem sortByCmp_head_le {c : α → α → Ordering} [TransCmp c] {l : List α} {m : α}
    (h : (sortByCmp c l).head? = some m) : ∀ x ∈ l, c m x ≠ .gt := by
  intro x hx
  obtain ⟨ys, hys⟩ := List.head?_eq_some_iff.mp h
  have hmem : x ∈ sortByCmp c l := mem_sortByCmp.mpr hx
  rw [hys] at hmem
  rcases List.mem_cons.mp hmem with hxm | hxys
  · subst hxm; simp [OrientedCmp.cmp_refl]
  · have hp := pairwise_sortByCmp (c := c) l
    rw [hys, List.pairwise_cons] at hp
    exact hp.1 x hxys

theorem ordering_then_eq (o : Ordering) : o.then Ordering.eq = o := by
  cases o <;> rfl

theorem ordering_eq_then (o : Ordering) : Ordering.eq.then o = o := rfl

theorem ordering_lt_then (o : Ordering) : Ordering.lt.then o = .lt := rfl

theorem ordering_gt_then (o : Ordering) : Ordering.gt.then o = .gt := rfl

theorem compare_nat_zero_zero : compare (0 : Nat) 0 = .eq := by decide

theorem compare_nat_zero_one : compare (0 : Nat) 1 = .lt := by decide

theorem compare_nat_one_zero : compare (1 : Nat) 0 = .gt := by decide

theorem compare_nat_one_one : compare (1 : Nat) 1 = .eq := by decide

theorem ordering_then_assoc (a b c : Ordering) :
    (a.then b).then c = a.then (b.then c) := by
  cases a <;> cases b <;> rfl

/-! ## Semver data model

Mirrors the semver crate the program delegates to: Version records with
numeric major/minor/patch, a dot-separated pre-release identifier sequence
(stored here as the list of its segments, which the crate's comparisons
recover by splitting its raw string on dots) and raw build metadata.
String comparisons in the crate are byte-lexicographic on UTF-8; the
identifiers produced by its parser are ASCII-only (letters, digits,
hyphens), on which Lean's code-point-lexicographic String compare agrees. -/

/-- A parsed semantic version (semver crate Version). -/
structure SemVersion where
  major : Nat
  minor : Nat
  patch : Nat
  pre : List String
  build : String
deriving DecidableEq, Repr

/-- One version entry of the registry snapshot for a crate
(crates_index Version: name, version string, SHA-256 checksum bytes,
yank flag). -/
structure VersionRecord where
  name : String
  vers : String
  checksum : List Nat
  yanked : Bool
deriving DecidableEq, Repr

/-- bytes().all(is_ascii_digit) of the semver crate's identifier
comparisons; true on the empty string, exactly as in the source. -/
def allDigits (s : String) : Bool := s.data.all Char.isDigit

/-- trim_start_matches of zeros, used by the build-metadata comparison. -/
def trimZeros (s : String) : String := ⟨s.data.dropWhile (fun c => c == '0')⟩

/-- Comparison of one pre-release identifier against another (semver crate,
Ord for Prerelease, loop body): two all-digit identifiers compare by length
then lexicographically (numeric order, as parsed identifiers have no leading
zeros), a numeric identifier is less than an alphanumeric one, and two
alphanumeric identifiers compare lexicographically. -/
def cmpIdentPre (a b : String) : Ordering :=
  match allDigits a, allDigits b with
  | true, true => (compare a.length b.length).then (compare a b)
  | true, false => .lt
  | false, true => .gt
  | false, false => compare a b

/-- Rank used to restate cmpIdentPre in compareLex normal form. -/
def identClassKey (s : String) : Nat := if allDigits s then 0 else 1

/-- Length key used to restate cmpIdentPre in compareLex normal form. -/
def identLenKey (s : String) : Nat := if allDigits s then s.length else 0

theorem cmpIdentPre_eq_lex :
    cmpIdentPre = compareLex (compareOn identClassKey)
      (compareLex (compareOn identLenKey) (compareOn (fun s : String => s))) := by
  funext a b
  unfold cmpIdentPre compareLex compareOn identClassKey identLenKey
  cases ha : allDigits a <;> cases hb : allDigits b <;>
    simp [ha, hb, ordering_then_eq, ordering_eq_then, ordering_lt_then,
      ordering_gt_then, compare_nat_zero_zero, compare_nat_zero_one,
      compare_nat_one_zero, compare_nat_one_one]

instance : TransCmp cmpIdentPre := by
  rw [cmpIdentPre_eq_lex]; infer_instance

/-- Comparison of one build-metadata identifier against another (semver
crate, Ord for BuildMetadata, loop body): all-digit identifiers compare
numerically after stripping leading zeros, with the raw length as a final
tie-break; a numeric identifier is less than an alphanumeric one; otherwise
lexicographic. -/
def cmpIdentBuild (a b : String) : Ordering :=
  match allDigits a, allDigits b with
  | true, true =>
    ((compare (trimZeros a).length (trimZeros b).length).then
      (compare (trimZeros a) (trimZeros b))).then (compare a.length b.length)
  | true, false => .lt
  | false, true => .gt
  | false, false => compare a b

/-- Trimmed-length key for the compareLex normal form of cmpIdentBuild. -/
def identTrimLenKey (s : String) : Nat := if allDigits s then (trimZeros s).length else 0

/-- Trimmed-string key for the compareLex normal form of cmpIdentBuild. -/
def identTrimStrKey (s : String) : String := if allDigits s then trimZeros s else s

/-- Raw-length key for the compareLex normal form of cmpIdentBuild. -/
def identRawLenKey (s : String) : Nat := if allDigits s then s.length else 0

theorem cmpIdentBuild_eq_lex :
    cmpIdentBuild = compareLex (compareOn identClassKey)
      (compareLex (compareOn identTrimLenKey)
        (compareLex (compareOn identTrimStrKey) (compareOn identRawLenKey))) := by
  funext a b
  unfold cmpIdentBuild compareLex compareOn identClassKey identTrimLenKey
    identTrimStrKey identRawLenKey
  cases ha : allDigits a <;> cases hb : allDigits b <;>
    simp [ha, hb, ordering_then_eq, ordering_then_assoc, ordering_eq_then,
      ordering_lt_then, ordering_gt_then, compare_nat_zero_zero,
      compare_nat_zero_one, compare_nat_one_zero, compare_nat_one_one]

instance : TransCmp cmpIdentBuild := by
  rw [cmpIdentBuild_eq_lex]; infer_instance

/-- Pre-release sequence ordering (semver crate, Ord for Prerelease): the
empty sequence (a real release) is greater than any non-empty one, two
non-empty sequences compare lexicographically identifier by identifier,
a strict prefix comparing less. -/
def cmpPre (a b : List String) : Ordering :=
  match a.isEmpty, b.isEmpty with
  | true, true => .eq
  | true, false => .gt
  | false, true => .lt
  | false, false => cmpList cmpIdentPre a b

/-- Emptiness rank for the compareLex normal form of cmpPre. -/
def preEmptyKey (l : List String) : Nat := if l.isEmpty then 1 else 0

theorem cmpPre_eq_lex :
    cmpPre = compareLex (compareOn preEmptyKey) (cmpList cmpIdentPre) := by
  funext a b
  unfold cmpPre compareLex compareOn preEmptyKey
  cases a <;> cases b <;>
    simp [cmpList, List.isEmpty, ordering_eq_then, ordering_lt_then,
      ordering_gt_then, compare_nat_zero_zero, compare_nat_zero_one,
      compare_nat_one_zero, compare_nat_one_one]

instance : TransCmp cmpPre := by
  rw [cmpPre_eq_lex]; infer_instance

/-- Split a character list on a separator character, yielding the (possibly
empty) segments between separators, as str::split and String.splitOn do for
a one-character separator. -/
def splitSegsGo (sep : Char) (cur : List Char) : List Char → List String
  | [] => [String.mk cur.reverse]
  | c :: cs =>
    if c = sep then String.mk cur.reverse :: splitSegsGo sep [] cs
    else splitSegsGo sep (c :: cur) cs

/-- Split a string on a separator character. -/
def splitSegs (sep : Char) (l : List Char) : List String := splitSegsGo sep [] l

/-- Build-metadata ordering (semver crate, Ord for BuildMetadata): the raw
string is split on dots and the segments compared lexicographically. -/
def cmpBuild (a b : String) : Ordering :=
  cmpList cmpIdentBuild (splitSegs '.' a.data) (splitSegs '.' b.data)

instance : TransCmp cmpBuild :=
  transCmp_comap (inferInstanceAs (TransCmp (cmpList cmpIdentBuild)))
    (fun s : String => splitSegs '.' s.data)

/-- Version precedence (semver spec §11, as implemented by the semver
crate's Ord for Version up to but excluding the final build-metadata
tie-break): major, minor, patch numerically, then pre-release. -/
def precCmp (a b : SemVersion) : Ordering :=
  ((compare a.major b.major).then (compare a.minor b.minor)).then
    ((compare a.patch b.patch).then (cmpPre a.pre b.pre))

/-- Total version ordering (semver crate, Ord for Version): precedence,
with build metadata as a final tie-break so that the order is total. -/
def versionCmp (a b : SemVersion) : Ordering :=
  (precCmp a b).then (cmpBuild a.build b.build)

theorem precCmp_eq_lex :
    precCmp = compareLex (compareOn SemVersion.major)
      (compareLex (compareOn SemVersion.minor)
        (compareLex (compareOn SemVersion.patch)
          (fun a b => cmpPre a.pre b.pre))) := by
  funext a b
  unfold precCmp compareLex compareOn
  simp [ordering_then_assoc]

instance : TransCmp precCmp := by
  rw [precCmp_eq_lex]
  haveI := transCmp_comap (inferInstanceAs (TransCmp cmpPre))
    (fun v : SemVersion => v.pre)
  infer_instance

theorem versionCmp_eq_lex :
    versionCmp = compareLex precCmp (fun a b => cmpBuild a.build b.build) := rfl

instance : TransCmp versionCmp := by
  rw [versionCmp_eq_lex]
  haveI := transCmp_comap (inferInstanceAs (TransCmp cmpBuild))
    (fun v : SemVersion => v.build)
  infer_instance

/-- If the total version order does not put a below b, neither does
precedence: the build tie-break only refines precedence ties. -/
theorem precCmp_ne_lt_of_versionCmp_ne_lt {a b : SemVersion}
    (h : versionCmp a b ≠ .lt) : precCmp a b ≠ .lt := by
  intro hlt
  apply h
  unfold versionCmp
  rw [hlt]
  rfl

/-- The comparator passed to sort_by in the resolver: versions compare by
the semver total order, reversed so that the sort is descending. -/
def sortCmp (x y : SemVersion × VersionRecord) : Ordering :=
  (versionCmp x.1 y.1).swap

instance : TransCmp sortCmp := by
  have h : sortCmp = flip (fun x y : SemVersion × VersionRecord => versionCmp x.1 y.1) := by
    funext x y
    exact OrientedCmp.symm x.1 y.1
  rw [h]
  haveI := transCmp_comap (inferInstanceAs (TransCmp versionCmp))
    (fun x : SemVersion × VersionRecord => x.1)
  infer_instance

/-! ## Semver parsing (semver crate, parse.rs) -/

/-- The u64 overflow bound checked by the numeric-identifier parser. -/
def u64Bound : Nat := 18446744073709551616

/-- Digit-accumulation loop of numeric_identifier: rejects a leading zero
followed by more digits, and rejects u64 overflow.  Returns the value, the
number of digits consumed, and the rest. -/
def numIdGo (value len : Nat) : List Char → Option (Nat × Nat × List Char)
  | [] => some (value, len, [])
  | c :: cs =>
    if c.isDigit then
      if value == 0 && decide (0 < len) then none
      else
        let v := value * 10 + (c.toNat - 48)
        if v < u64Bound then numIdGo v (len + 1) cs else none
    else some (value, len, c :: cs)

/-- numeric_identifier: one or more ASCII digits, no leading zeros, within
u64 range. -/
def numericIdentifier (l : List Char) : Option (Nat × List Char) :=
  match numIdGo 0 0 l with
  | none => none
  | some (v, len, rest) => if 0 < len then some (v, rest) else none

/-- The character class of pre-release/build identifier segments:
ASCII letters, digits and hyphen. -/
def isIdentChar (c : Char) : Bool := c.isAlpha || c.isDigit || c == '-'

/-- A pre-release numeric segment with a leading zero and more than one
digit is rejected (LeadingZero). -/
def preLeadingZeroBad (seg : List Char) : Bool :=
  decide (1 < seg.length) && seg.all Char.isDigit && seg.head? == some '0'

/-- Segment loop of the identifier parser: dot-separated non-empty segments
of identifier characters; in pre-release position, all-digit segments must
not have leading zeros. -/
def parseIdentGo (isPre : Bool) : Nat → List Char → Option (List String × List Char)
  | 0, _ => none
  | fuel + 1, l =>
    let seg := l.takeWhile isIdentChar
    let rest := l.dropWhile isIdentChar
    if seg.isEmpty then none
    else if isPre && preLeadingZeroBad seg then none
    else
      match rest with
      | '.' :: rest2 =>
        (parseIdentGo isPre fuel rest2).map (fun p => (String.mk seg :: p.1, p.2))
      | _ => some ([String.mk seg], rest)

/-- identifier: returns the (possibly empty) dotted identifier as its list
of segments; an empty first segment is only accepted when not followed by a
dot, in which case nothing is consumed. -/
def parseIdentifier (isPre : Bool) (l : List Char) : Option (List String × List Char) :=
  let seg := l.takeWhile isIdentChar
  if seg.isEmpty then
    match l.dropWhile isIdentChar with
    | '.' :: _ => none
    | _ => some ([], l)
  else parseIdentGo isPre (l.length + 1) l

/-- The optional -pre part of a version (and of a comparator with a patch
component): a dash followed by a non-empty pre-release identifier. -/
def parseVersionPre : List Char → Option (List String × List Char)
  | '-' :: t =>
    match parseIdentifier true t with
    | none => none
    | some (pre, r) => if pre.isEmpty then none else some (pre, r)
  | t => some ([], t)

/-- The optional +build part of a version: a plus followed by a non-empty
build identifier, stored as its raw dotted text. -/
def parseVersionBuild : List Char → Option (String × List Char)
  | '+' :: t =>
    match parseIdentifier false t with
    | none => none
    | some (b, r) => if b.isEmpty then none else some (String.intercalate "." b, r)
  | t => some ("", t)

/-- Version::parse of the semver crate: major.minor.patch, all three
required, then optional -pre and +build, nothing trailing. -/
def parseSemVersion (s : String) : Option SemVersion :=
  match numericIdentifier s.data with
  | none => none
  | some (major, t1) =>
    match t1 with
    | '.' :: t2 =>
      match numericIdentifier t2 with
      | none => none
      | some (minor, t3) =>
        match t3 with
        | '.' :: t4 =>
          match numericIdentifier t4 with
          | none => none
          | some (patch, t5) =>
            match parseVersionPre t5 with
            | none => none
            | some (pre, t6) =>
              match parseVersionBuild t6 with
              | none => none
              | some (build, t7) =>
                if t7.isEmpty then some ⟨major, minor, patch, pre, build⟩ else none
        | _ => none
    | _ => none

/-- A comparator operator of a version requirement (semver crate Op).  The
default operator written as a bare version is caret. -/
inductive ReqOp
  | exact
  | greater
  | greaterEq
  | less
  | lessEq
  | tilde
  | caret
  | wildcard
deriving DecidableEq, Repr

/-- One comparator of a version requirement (semver crate Comparator);
build metadata in a comparator is parsed but not stored. -/
structure Comparator where
  op : ReqOp
  major : Nat
  minor : Option Nat
  patch : Option Nat
  pre : List String
deriving DecidableEq, Repr

/-- A version requirement: a conjunction of comparators (semver crate
VersionReq).  The empty list is the star requirement. -/
structure VersionReq where
  comparators : List Comparator
deriving DecidableEq, Repr

/-- VersionReq::STAR. -/
def VersionReq.star : VersionReq := ⟨[]⟩

/-- Drop leading spaces (trim_start_matches of a space: only the space
character, not general whitespace). -/
def trimSpaces (l : List Char) : List Char := l.dropWhile (fun c => c == ' ')

/-- The optional operator in front of a comparator. -/
def parseOp : List Char → Option ReqOp × List Char
  | '=' :: r => (some .exact, r)
  | '>' :: '=' :: r => (some .greaterEq, r)
  | '>' :: r => (some .greater, r)
  | '<' :: '=' :: r => (some .lessEq, r)
  | '<' :: r => (some .less, r)
  | '~' :: r => (some .tilde, r)
  | '^' :: r => (some .caret, r)
  | l => (none, l)

/-- A wildcard character in a version position: asterisk, x or X. -/
def wildcardC : List Char → Option (List Char)
  | '*' :: r => some r
  | 'x' :: r => some r
  | 'X' :: r => some r
  | _ => none

/-- Assemble a parsed comparator, dropping trailing spaces as the source
does before looking for a comma. -/
def finishComparator (op : ReqOp) (major : Nat) (minor patch : Option Nat)
    (pre : List String) (text : List Char) : Option (Comparator × List Char) :=
  some ({ op := op, major := major, minor := minor, patch := patch, pre := pre },
    trimSpaces text)

/-- The optional build part of a comparator: parsed for well-formedness but
discarded. -/
def parseCompBuild : List Char → Option (List Char)
  | '+' :: t =>
    match parseIdentifier false t with
    | none => none
    | some (b, r) => if b.isEmpty then none else some r
  | t => some t

/-- Pre and build parts of a comparator whose patch component is present. -/
def parseCompPreBuild (op : ReqOp) (major : Nat) (minor patch : Option Nat)
    (t : List Char) : Option (Comparator × List Char) :=
  match parseVersionPre t with
  | none => none
  | some (pre, t2) =>
    match parseCompBuild t2 with
    | none => none
    | some t3 => finishComparator op major minor patch pre t3

/-- comparator of the semver crate's requirement parser: an optional
operator (default caret), spaces, a major component, then optional
minor/patch components each of which may be a wildcard.  A wildcard
component turns a default (caret) operator into the wildcard operator, a
numeric component after a wildcard one is rejected, and pre/build are only
parsed when the patch component is a number. -/
def parseComparator (input : List Char) : Option (Comparator × List Char) :=
  let (opOpt, postOp) := parseOp input
  let op0 := opOpt.getD ReqOp.caret
  let text := trimSpaces postOp
  match numericIdentifier text with
  | none => none
  | some (major, text1) =>
    match text1 with
    | '.' :: t2 =>
      match wildcardC t2 with
      | some t3 =>
        let op1 := if op0 = ReqOp.caret then ReqOp.wildcard else op0
        match t3 with
        | '.' :: t4 =>
          match wildcardC t4 with
          | some t5 => finishComparator op1 major none none [] t5
          | none => none
        | _ => finishComparator op1 major none none [] t3
      | none =>
        match numericIdentifier t2 with
        | none => none
        | some (minor, t3) =>
          match t3 with
          | '.' :: t4 =>
            match wildcardC t4 with
            | some t5 =>
              let op1 := if op0 = ReqOp.caret then ReqOp.wildcard else op0
              finishComparator op1 major (some minor) none [] t5
            | none =>
              match numericIdentifier t4 with
              | none => none
              | some (patch, t5) =>
                parseCompPreBuild op0 major (some minor) (some patch) t5
          | _ => finishComparator op0 major (some minor) none [] t3
    | _ => finishComparator op0 major none none [] text1

/-- version_req of the semver crate's parser: comma-separated comparators,
spaces allowed after each comma, at most 32 of them.  The fuel argument
only bounds the recursion and is chosen large enough (33) that the depth
guard always fires first. -/
def parseReqGo : Nat → List Char → Nat → Option (List Comparator)
  | 0, _, _ => none
  | fuel + 1, l, depth =>
    match parseComparator l with
    | none => none
    | some (co, text) =>
      if text.isEmpty then some [co]
      else
        match text with
        | ',' :: rest =>
          if depth + 1 = 32 then none
          else (parseReqGo fuel (trimSpaces rest) (depth + 1)).map (fun cs => co :: cs)
        | _ => none

/-- VersionReq::parse: leading spaces dropped; a lone wildcard (optionally
followed by spaces) is the star requirement; otherwise a comma-separated
comparator list. -/
def parseVersionReq (s : String) : Option VersionReq :=
  let text := trimSpaces s.data
  match wildcardC text with
  | some rest => if (trimSpaces rest).isEmpty then some VersionReq.star else none
  | none => (parseReqGo 33 text 0).map VersionReq.mk

/-! ## Semver display (semver crate, impls.rs Display) -/

/-- The operator prefix printed for each comparator operator. -/
def opDisplay : ReqOp → String
  | .exact => "="
  | .greater => ">"
  | .greaterEq => ">="
  | .less => "<"
  | .lessEq => "<="
  | .tilde => "~"
  | .caret => "^"
  | .wildcard => ""

/-- Display for Comparator: operator, major, then minor/patch/pre as far as
they are present, a wildcard operator printing its component as an
asterisk. -/
def comparatorDisplay (c : Comparator) : String :=
  opDisplay c.op ++ toString c.major ++
    match c.minor with
    | some m =>
      "." ++ toString m ++
        match c.patch with
        | some p =>
          "." ++ toString p ++
            (if c.pre.isEmpty then "" else "-" ++ String.intercalate "." c.pre)
        | none => if c.op = ReqOp.wildcard then ".*" else ""
    | none => if c.op = ReqOp.wildcard then ".*" else ""

/-- Display for VersionReq: star when empty, else comma-space separated
comparators. -/
def reqDisplay (r : VersionReq) : String :=
  if r.comparators.isEmpty then "*"
  else String.intercalate ", " (r.comparators.map comparatorDisplay)

/-! ## Requirement matching (semver crate, eval.rs) -/

/-- matches_exact: equal major, equal minor/patch where the comparator has
them, and exactly equal pre-release. -/
def matchesExact (c : Comparator) (v : SemVersion) : Bool :=
  v.major == c.major &&
  (match c.minor with
   | some minor => v.minor == minor
   | none => true) &&
  (match c.patch with
   | some patch => v.patch == patch
   | none => true) &&
  v.pre == c.pre

/-- matches_greater. -/
def matchesGreater (c : Comparator) (v : SemVersion) : Bool :=
  if v.major ≠ c.major then decide (v.major > c.major)
  else
    match c.minor with
    | none => false
    | some minor =>
      if v.minor ≠ minor then decide (v.minor > minor)
      else
        match c.patch with
        | none => false
        | some patch =>
          if v.patch ≠ patch then decide (v.patch > patch)
          else cmpPre v.pre c.pre == .gt

/-- matches_less. -/
def matchesLess (c : Comparator) (v : SemVersion) : Bool :=
  if v.major ≠ c.major then decide (v.major < c.major)
  else
    match c.minor with
    | none => false
    | some minor =>
      if v.minor ≠ minor then decide (v.minor < minor)
      else
        match c.patch with
        | none => false
        | some patch =>
          if v.patch ≠ patch then decide (v.patch < patch)
          else cmpPre v.pre c.pre == .lt

/-- matches_tilde. -/
def matchesTilde (c : Comparator) (v : SemVersion) : Bool :=
  if v.major ≠ c.major then false
  else if (match c.minor with
           | some minor => v.minor != minor
           | none => false) then false
  else
    match c.patch with
    | some patch =>
      if v.patch ≠ patch then decide (v.patch > patch)
      else !(cmpPre v.pre c.pre == .lt)
    | none => !(cmpPre v.pre c.pre == .lt)

/-- matches_caret. -/
def matchesCaret (c : Comparator) (v : SemVersion) : Bool :=
  if v.major ≠ c.major then false
  else
    match c.minor with
    | none => true
    | some minor =>
      match c.patch with
      | none =>
        if 0 < c.major then decide (v.minor ≥ minor)
        else v.minor == minor
      | some patch =>
        if 0 < c.major then
          if v.minor ≠ minor then decide (v.minor > minor)
          else if v.patch ≠ patch then decide (v.patch > patch)
          else !(cmpPre v.pre c.pre == .lt)
        else if 0 < minor then
          if v.minor ≠ minor then false
          else if v.patch ≠ patch then decide (v.patch > patch)
          else !(cmpPre v.pre c.pre == .lt)
        else if v.minor ≠ minor || v.patch ≠ patch then false
        else !(cmpPre v.pre c.pre == .lt)

/-- matches_impl: dispatch on the comparator operator. -/
def matchesImpl (c : Comparator) (v : SemVersion) : Bool :=
  match c.op with
  | .exact => matchesExact c v
  | .wildcard => matchesExact c v
  | .greater => matchesGreater c v
  | .greaterEq => matchesExact c v || matchesGreater c v
  | .less => matchesLess c v
  | .lessEq => matchesExact c v || matchesLess c v
  | .tilde => matchesTilde c v
  | .caret => matchesCaret c v

/-- A comparator allows a pre-release version only when it names the same
major.minor.patch and itself carries a pre-release. -/
def preCompatible (c : Comparator) (v : SemVersion) : Bool :=
  c.major == v.major && c.minor == some v.minor && c.patch == some v.patch &&
    !c.pre.isEmpty

/-- matches_req: every comparator must match, and a pre-release version
additionally needs some comparator that is pre-compatible with it.  In
particular the star requirement (no comparators) matches exactly the
versions without a pre-release. -/
def matchesReq (r : VersionReq) (v : SemVersion) : Bool :=
  r.comparators.all (fun c => matchesImpl c v) &&
    (v.pre.isEmpty || r.comparators.any (fun c => preCompatible c v))

/-! ## Version resolution (main.rs, App::run, version selection) -/

/-- The candidate list built by the resolver: registry entries filtered by
the yank policy, parsed as semantic versions (unparseable entries are
logged and skipped, never fatal), and filtered by the requirement. -/
def candidateList (records : List VersionRecord) (req : VersionReq)
    (allowYanked : Bool) : List (SemVersion × VersionRecord) :=
  ((records.filter (fun v => allowYanked || !v.yanked)).filterMap
      (fun v => (parseSemVersion v.vers).map (fun n => (n, v)))).filter
    (fun p => matchesReq req p.1)

/-- The resolver's selection: candidates sorted descending by the semver
total order (sort_by with a reversed comparator), first one taken. -/
def selectVersion (records : List VersionRecord) (req : VersionReq)
    (allowYanked : Bool) : Option (SemVersion × VersionRecord) :=
  (sortByCmp sortCmp (candidateList records req allowYanked)).head?

/-- The recomputation on failure, restricted to yanked versions matching
the requirement (main.rs, the yanked_versions block). -/
def yankedCandidateList (records : List VersionRecord) (req : VersionReq) :
    List (SemVersion × VersionRecord) :=
  ((records.filter (fun v => v.yanked)).filterMap
      (fun v => (parseSemVersion v.vers).map (fun n => (n, v)))).filter
    (fun p => matchesReq req p.1)

/-- Best yanked-but-matching version, used only for the advisory hint. -/
def selectYanked (records : List VersionRecord) (req : VersionReq) :
    Option (SemVersion × VersionRecord) :=
  (sortByCmp sortCmp (yankedCandidateList records req)).head?

/-! ## Crate names (crate_name.rs) -/

/-- The character test of from_str, with the standard library's
char::is_alphanumeric — a Unicode-table function external to this crate —
as an explicit parameter: a character is acceptable when it passes that
test or is a hyphen or an underscore. -/
def nameCharOkP (alnum : Char → Bool) (c : Char) : Bool :=
  alnum c || c == '-' || c == '_'

/-- chars().enumerate().find of the first unacceptable character, with its
index, over the same alphanumeric parameter. -/
def findBadCharP (alnum : Char → Bool) (i : Nat) : List Char → Option (Char × Nat)
  | [] => none
  | c :: cs => if !nameCharOkP alnum c then some (c, i) else findBadCharP alnum (i + 1) cs

/-- A validated crate name (crate_name.rs CrateName). -/
structure CrateName where
  val : String
deriving DecidableEq, Repr

/-- crate_name.rs ParseError. -/
inductive CrateNameError
  | invalidCharacter (c : Char) (index : Nat)
deriving DecidableEq, Repr

/-- FromStr for CrateName over the alphanumeric parameter: fails with the
first unacceptable character and its index, otherwise wraps the string
unchanged.  Instantiated at char::is_alphanumeric this is from_str itself;
the theorems about it hold uniformly in the parameter,
so in particular at that instantiation. -/
def crateNameFromStrP (alnum : Char → Bool) (s : String) :
    Except CrateNameError CrateName :=
  match findBadCharP alnum 0 s.data with
  | some (c, i) => .error (.invalidCharacter c i)
  | none => .ok ⟨s⟩

/-- The restriction of char::is_alphanumeric to the Basic Latin and
Latin-1 Supplement blocks: the ASCII letters and digits, and the Latin-1
block's letters and numeric characters (the ordinal indicators,
superscripts, the micro sign, the vulgar fractions and the accented
letters, excluding the multiplication and division signs), tabulated
exactly there; above U+00FF it is false by construction, standing in for
no value of the real predicate.  It agrees with char::is_alphanumeric on
every character below U+0100, and every concrete instance in this file
evaluates it only on such characters. -/
def latin1_alphanumeric (c : Char) : Bool :=
  c.isAlpha || c.isDigit ||
    (let n := c.toNat
     n == 0xAA || n == 0xB2 || n == 0xB3 || n == 0xB5 || n == 0xB9 || n == 0xBA ||
     n == 0xBC || n == 0xBD || n == 0xBE ||
     (decide (0xC0 ≤ n) && decide (n ≤ 0xD6)) ||
     (decide (0xD8 ≤ n) && decide (n ≤ 0xF6)) ||
     (decide (0xF8 ≤ n) && decide (n ≤ 0xFF)))

/-- FromStr for CrateName at the Latin-1 restriction of the character
test: it computes exactly what the program does on every string whose
characters lie below U+0100, which covers every concrete string this file
applies it to. -/
def crateNameFromStr (s : String) : Except CrateNameError CrateName :=
  crateNameFromStrP latin1_alphanumeric s

/-- Display for CrateName: pads the inner string, which with a plain
formatter is the identity. -/
def crateNameDisplay (n : CrateName) : String := n.val

/-! ## Package id specs (package_id_spec.rs) -/

/-- Split a token at its first at-sign, if any (s.find of the at-sign and
the two slices around it). -/
def splitAtFirstAtSign : List Char → Option (List Char × List Char)
  | [] => none
  | c :: cs =>
    if c = '@' then some ([], cs)
    else (splitAtFirstAtSign cs).map (fun p => (c :: p.1, p.2))

/-- package_id_spec.rs PackageIdSpec: a crate name and an optional version
requirement. -/
structure PackageIdSpec where
  name : CrateName
  version_req : Option VersionReq
deriving DecidableEq, Repr

/-- package_id_spec.rs ParseError. -/
inductive SpecError
  | crateName (e : CrateNameError) (s : String)
  | versionReq (s : String)
deriving DecidableEq, Repr

/-- FromStr for PackageIdSpec: split on the first at-sign; the left side is
the crate name, the right side (when present) a version requirement. -/
def packageIdSpecFromStr (s : String) : Except SpecError PackageIdSpec :=
  match splitAtFirstAtSign s.data with
  | some (l, r) =>
    match crateNameFromStr (String.mk l) with
    | .error e => .error (.crateName e (String.mk l))
    | .ok n =>
      match parseVersionReq (String.mk r) with
      | none => .error (.versionReq (String.mk r))
      | some vr => .ok ⟨n, some vr⟩
  | none =>
    match crateNameFromStr s with
    | .error e => .error (.crateName e s)
    | .ok n => .ok ⟨n, none⟩

/-- Display for PackageIdSpec: name, or name at-sign requirement, the
requirement rendered by its own Display. -/
def packageIdSpecDisplay (p : PackageIdSpec) : String :=
  match p.version_req with
  | some vr => crateNameDisplay p.name ++ "@" ++ reqDisplay vr
  | none => crateNameDisplay p.name

/-! ## SHA-256 (the sha2 crate's function, FIPS 180-4), over byte lists -/

/-- Truncation to 32 bits. -/
def w32 (x : Nat) : Nat := x % 4294967296

/-- 32-bit right rotation. -/
def rotr32 (n x : Nat) : Nat := w32 ((x >>> n) ||| (x <<< (32 - n)))

/-- Big sigma-0. -/
def bsig0 (x : Nat) : Nat := (rotr32 2 x) ^^^ (rotr32 13 x) ^^^ (rotr32 22 x)

/-- Big sigma-1. -/
def bsig1 (x : Nat) : Nat := (rotr32 6 x) ^^^ (rotr32 11 x) ^^^ (rotr32 25 x)

/-- Small sigma-0. -/
def ssig0 (x : Nat) : Nat := (rotr32 7 x) ^^^ (rotr32 18 x) ^^^ (x >>> 3)

/-- Small sigma-1. -/
def ssig1 (x : Nat) : Nat := (rotr32 17 x) ^^^ (rotr32 19 x) ^^^ (x >>> 10)

/-- Choice function; the complement of a 32-bit x is its difference from
the all-ones word. -/
def chFn (x y z : Nat) : Nat := (x &&& y) ^^^ ((4294967295 - x) &&& z)

/-- Majority function. -/
def majFn (x y z : Nat) : Nat := (x &&& y) ^^^ (x &&& z) ^^^ (y &&& z)

/-- The 64 SHA-256 round constants. -/
def shaK : List Nat :=
  [1116352408, 1899447441, 3049323471, 3921009573, 961987163, 1508970993,
   2453635748, 2870763221, 3624381080, 310598401, 607225278, 1426881987,
   1925078388, 2162078206, 2614888103, 3248222580, 3835390401, 4022224774,
   264347078, 604807628, 770255983, 1249150122, 1555081692, 1996064986,
   2554220882, 2821834349, 2952996808, 3210313671, 3336571891, 3584528711,
   113926993, 338241895, 666307205, 773529912, 1294757372, 1396182291,
   1695183700, 1986661051, 2177026350, 2456956037, 2730485921, 2820302411,
   3259730800, 3345764771, 3516065817, 3600352804, 4094571909, 275423344,
   430227734, 506948616, 659060556, 883997877, 958139571, 1322822218,
   1537002063, 1747873779, 1955562222, 2024104815, 2227730452, 2361852424,
   2428436474, 2756734187, 3204031479, 3329325298]

/-- The SHA-256 initial hash value. -/
def shaH0 : List Nat :=
  [1779033703, 3144134277, 1013904242, 2773480762,
   1359893119, 2600822924, 528734635, 1541459225]

/-- Big-endian byte serialization of a number into k bytes. -/
def toBytesBE : Nat → Nat → List Nat
  | 0, _ => []
  | k + 1, n => toBytesBE k (n >>> 8) ++ [n &&& 255]

/-- Merkle-Damgard padding: a 0x80 byte, zeros to 56 mod 64, and the bit
length in 8 big-endian bytes. -/
def padMessage (msg : List Nat) : List Nat :=
  let len := msg.length
  let padZeros := (120 - ((len + 1) % 64)) % 64
  msg ++ [128] ++ List.replicate padZeros 0 ++ toBytesBE 8 (len * 8)

/-- Big-endian 32-bit words of a byte list whose length is a multiple of
four. -/
def toWordsBE : List Nat → List Nat
  | b0 :: b1 :: b2 :: b3 :: rest =>
    ((b0 <<< 24) ||| (b1 <<< 16) ||| (b2 <<< 8) ||| b3) :: toWordsBE rest
  | _ => []

/-- Extend a 16-word block to the 64-word message schedule. -/
def buildSchedule (w : Array Nat) : Nat → Array Nat
  | 0 => w
  | r + 1 =>
    let i := w.size
    let v := w32 (ssig1 (w.getD (i - 2) 0) + w.getD (i - 7) 0 +
      ssig0 (w.getD (i - 15) 0) + w.getD (i - 16) 0)
    buildSchedule (w.push v) r

/-- One SHA-256 round on the eight working variables. -/
def roundStep (w : Array Nat)
    (st : Nat × Nat × Nat × Nat × Nat × Nat × Nat × Nat) (i : Nat) :
    Nat × Nat × Nat × Nat × Nat × Nat × Nat × Nat :=
  let (a, b, c, d, e, f, g, h) := st
  let t1 := w32 (h + bsig1 e + chFn e f g + shaK.getD i 0 + w.getD i 0)
  let t2 := w32 (bsig0 a + majFn a b c)
  (w32 (t1 + t2), a, b, c, w32 (d + t1), e, f, g)

/-- Compression of one 16-word block into the running hash. -/
def compressBlock (h : List Nat) (block : List Nat) : List Nat :=
  let w := buildSchedule (Array.mk block) 48
  let init := (h.getD 0 0, h.getD 1 0, h.getD 2 0, h.getD 3 0,
    h.getD 4 0, h.getD 5 0, h.getD 6 0, h.getD 7 0)
  let fin := (List.range 64).foldl (roundStep w) init
  match fin with
  | (a, b, c, d, e, f, g, hh) =>
    [w32 (h.getD 0 0 + a), w32 (h.getD 1 0 + b), w32 (h.getD 2 0 + c),
     w32 (h.getD 3 0 + d), w32 (h.getD 4 0 + e), w32 (h.getD 5 0 + f),
     w32 (h.getD 6 0 + g), w32 (h.getD 7 0 + hh)]

/-- Fold the compression over the 16-word blocks of the padded message; the
fuel argument (instantiated with the word count, an upper bound on the
number of blocks) only serves structural termination and is never
exhausted. -/
def processBlocksGo (fuel : Nat) (h : List Nat) (ws : List Nat) : List Nat :=
  match fuel, ws with
  | _, [] => h
  | 0, _ => h
  | fuel + 1, w :: rest =>
    processBlocksGo fuel (compressBlock h ((w :: rest).take 16)) ((w :: rest).drop 16)

/-- Fold the compression over the 16-word blocks of the padded message. -/
def processBlocks (h : List Nat) (ws : List Nat) : List Nat :=
  processBlocksGo ws.length h ws

/-- SHA-256 digest of a byte list, as its 32 bytes. -/
def sha256 (msg : List Nat) : List Nat :=
  ((processBlocks shaH0 (toWordsBE (padMessage msg))).map (toBytesBE 4)).flatten

/-- One lowercase hex digit. -/
def hexDigitChar (n : Nat) : Char :=
  if n < 10 then Char.ofNat (48 + n) else Char.ofNat (87 + n)

/-- Lowercase hex encoding of a byte list (hex::encode). -/
def hexEncode (bytes : List Nat) : String :=
  ⟨bytes.foldr (fun b acc => hexDigitChar (b / 16) :: hexDigitChar (b % 16) :: acc) []⟩

/-! ## Archive extraction (unpack.rs) -/

/-- A path component as produced by Path::components: a root, a windows
drive/prefix, a parent-directory or current-directory component, or a
normal segment. -/
inductive PathC
  | root
  | drive
  | parent
  | cur
  | normal (s : String)
deriving DecidableEq, Repr

/-- Unix path parsing into components for the concrete paths used below:
a leading slash is a root component, dot-dot segments are parent
components, empty and single-dot segments are dropped (a single leading
dot is kept as a current-directory component, as Path::components does). -/
def pathCompsGo (first : Bool) : List String → List PathC
  | [] => []
  | seg :: rest =>
    if seg = "" then pathCompsGo first rest
    else if seg = ".." then PathC.parent :: pathCompsGo false rest
    else if seg = "." then
      (if first then [PathC.cur] else []) ++ pathCompsGo false rest
    else PathC.normal seg :: pathCompsGo false rest

/-- Components of a path string. -/
def pathComps (s : String) : List PathC :=
  match s.data with
  | '/' :: _ => PathC.root :: pathCompsGo false ((splitSegs '/' s.data).drop 1)
  | _ => pathCompsGo true (splitSegs '/' s.data)

/-- Display of a component, as the original text rendered by
Path::display. -/
def pathCDisplay : PathC → String
  | .root => ""
  | .drive => ""
  | .parent => ".."
  | .cur => "."
  | .normal s => s

/-- Display of a component path. -/
def pathDisplay (p : List PathC) : String :=
  match p with
  | PathC.root :: rest => "/" ++ String.intercalate "/" (rest.map pathCDisplay)
  | _ => String.intercalate "/" (p.map pathCDisplay)

/-- The rejection test of unpack: any parent-directory, root or
drive/prefix component makes an entry path unsafe. -/
def hasUnsafeComponent (p : List PathC) : Bool :=
  p.any fun c =>
    match c with
    | PathC.parent => true
    | PathC.root => true
    | PathC.drive => true
    | _ => false

/-- The error message thrown for an unsafe entry, naming the offending
path. -/
def unsafeMsg (p : List PathC) : String :=
  "a file in the archive (" ++ pathDisplay p ++ ") contains a .. or root segment"

/-- Path::strip_prefix against the single-component base directory name:
succeeds exactly when the path starts with that normal component. -/
def stripBaseDir (base : String) : List PathC → Option (List PathC)
  | PathC.normal s :: rest => if s = base then some rest else none
  | _ => none

/-- Path::parent of a joined destination: the destination without its last
component, none for an empty path. -/
def parentPath : List PathC → Option (List PathC)
  | [] => none
  | l => some l.dropLast

/-- Filesystem events of one pipeline run, in order. -/
inductive Ev
  | createDirAll (p : List PathC)
  | unpackFile (p : List PathC)
  | copyFile (src : List String) (dst : String)
  | writeFile (dst : String) (bytes : List Nat)
deriving DecidableEq, Repr

/-- Failures of the extraction loop. -/
inductive UnpackErr
  | unsafeEntry (msg : String)
  | stripFailed
  | missingParent
deriving DecidableEq, Repr

/-- The entry loop of unpack: each entry path is first checked for unsafe
components (fatal, naming the path, before anything is written for it),
then the expected base prefix is stripped (with the question-mark operator:
its absence is itself an error aborting the whole unpack), the parent of
the joined destination is created, and the entry is unpacked there.
Entries already processed keep their events: nothing is rolled back. -/
def unpackEntries (base : String) (output : List PathC) :
    List (List PathC) → List Ev × Except UnpackErr Unit
  | [] => ([], .ok ())
  | p :: rest =>
    if hasUnsafeComponent p then ([], .error (.unsafeEntry (unsafeMsg p)))
    else
      match stripBaseDir base p with
      | none => ([], .error .stripFailed)
      | some r =>
        match parentPath (output ++ r) with
        | none => ([], .error .missingParent)
        | some par =>
          let done := unpackEntries base output rest
          (Ev.createDirAll par :: Ev.unpackFile (output ++ r) :: done.1, done.2)

/-- unpack of unpack.rs: creates the destination directory, then processes
the archive entries in order against the name-version base prefix. -/
def unpack (v : VersionRecord) (entries : List (List PathC)) (output : List PathC) :
    List Ev × Except UnpackErr Unit :=
  let base := v.name ++ "-" ++ v.vers
  let done := unpackEntries base output entries
  (Ev.createDirAll output :: done.1, done.2)

/-- An entry the loop passes over without error: safe components and the
base prefix present. -/
def goodEntry (base : String) (p : List PathC) : Bool :=
  !hasUnsafeComponent p && (stripBaseDir base p).isSome

/-- The two events a good entry contributes: its destination parent is
created first, then the entry is unpacked at the destination, which is the
output directory joined with the prefix-stripped entry path. -/
def goodEntryEvents (base : String) (output : List PathC) (p : List PathC) : List Ev :=
  match stripBaseDir base p with
  | some r => [Ev.createDirAll (output ++ r).dropLast, Ev.unpackFile (output ++ r)]
  | none => []

/-! ## Cache probe (cache.rs) -/

/-- The per-spec world: the registry snapshot entry for the requested
crate, the registry index local path and the filesystem (directories and
file contents) seen by the cache probe, the download url of a version, the
network response (advertised content length and body bytes) per url, and
the external gzip-plus-tar decoder giving the entries of an archive byte
buffer. -/
structure World where
  krate : Option (List VersionRecord)
  indexPath : List String
  dirs : List (List String)
  files : List (List String × List Nat)
  url : String → String → Option String
  net : String → Option Nat × List Nat
  entriesOf : List Nat → List (List PathC)

/-- Contents of a file, if it exists. -/
def getFile (w : World) (p : List String) : Option (List Nat) :=
  (w.files.find? (fun q => q.1 == p)).map (fun q => q.2)

/-- find_cache_dir of cache.rs: take the registry index local path, pop its
directory name, require the two components above it to be index under
registry, and point at registry/cache under the same root; the resulting
directory must exist. -/
def find_cache_dir (w : World) : Except String (List String) :=
  match w.indexPath.reverse with
  | dirname :: par :: gpar :: restRev =>
    if par = "index" ∧ gpar = "registry" then
      let cachePath := restRev.reverse ++ ["registry", "cache", dirname]
      if w.dirs.contains cachePath then .ok cachePath
      else .error ("cache dir " ++ String.intercalate "/" cachePath ++ " does not exist")
    else .error "unexpected registry cache structure"
  | _ => .error "missing index path components"

/-- lookup of cache.rs: derive the cache file path for name-version.crate
under the cache directory; the entry is valid only if that file exists and
its SHA-256 digest equals the version's checksum, otherwise an error
(naming both digests on a mismatch) that the caller treats as a miss. -/
def cache_lookup (w : World) (v : VersionRecord) : Except String (List String) :=
  match find_cache_dir w with
  | .error e => .error e
  | .ok cacheDir =>
    let cacheFile := cacheDir ++ [v.name ++ "-" ++ v.vers ++ ".crate"]
    match getFile w cacheFile with
    | none =>
      .error ("cache file " ++ String.intercalate "/" cacheFile ++ " does not exist")
    | some bytes =>
      if sha256 bytes = v.checksum then .ok cacheFile
      else
        .error ("invalid checksum, expected " ++ hexEncode v.checksum ++
          " but got " ++ hexEncode (sha256 bytes))

/-! ## The per-spec pipeline (main.rs, App::run, per-spec thread body) -/

/-- The hard response size cap. -/
def CRATE_SIZE_LIMIT : Nat := 40 * 1024 * 1024

/-- The relevant configuration flags of the application. -/
structure AppCfg where
  extract : Bool
  output : Option String
  allow_yanked : Bool
  cache : Bool
deriving DecidableEq, Repr

/-- Per-spec terminal outcome on success. -/
inductive Outcome
  | written (path : String)
  | extracted (dir : String)
deriving DecidableEq, Repr

/-- Per-spec failures.  The logged variants print their message on the
progress bar (the checksum variant also logging both digests in hex) and
surface as the pre-reported LoggedError; the others propagate as context
errors. -/
inductive Failure
  | loggedNotFound
  | loggedNoMatch (msg : String)
  | loggedBadChecksum (expectedHex gotHex : String)
  | missingUrl
  | unpackFailed (e : UnpackErr)
deriving DecidableEq, Repr

/-- Whether a failure was already reported on its progress bar
(LoggedError). -/
def Failure.isLogged : Failure → Bool
  | .loggedNotFound => true
  | .loggedNoMatch _ => true
  | .loggedBadChecksum _ _ => true
  | _ => false

/-- The output path: the explicit output flag, or name-version (extraction)
or name-version.crate (plain write). -/
def outputName (cfg : AppCfg) (v : VersionRecord) : String :=
  match cfg.output with
  | some o => o
  | none =>
    if cfg.extract then v.name ++ "-" ++ v.vers
    else v.name ++ "-" ++ v.vers ++ ".crate"

/-- The no-match message, with the advisory hint naming the best yanked
matching version when there is one. -/
def noMatchMsg (hint : Option (SemVersion × VersionRecord)) : String :=
  match hint with
  | none => "no matching version found"
  | some (_, v) =>
    "no matching version found; the yanked version " ++ v.name ++ " " ++ v.vers ++
      " matched, use --allow-yanked to download it"

/-- The download branch: read the response body through a reader capped at
CRATE_SIZE_LIMIT into a buffer pre-sized to the advertised content length
when one is present and to the cap otherwise.  Returns the buffer capacity
and the bytes read. -/
def fetchData (w : World) (u : String) : Nat × List Nat :=
  match w.net u with
  | (some len, body) => (len, body.take CRATE_SIZE_LIMIT)
  | (none, body) => (CRATE_SIZE_LIMIT, body.take CRATE_SIZE_LIMIT)

/-- After the download, the SHA-256 of the bytes is compared with the
version's checksum: a mismatch is fatal for the spec, reported with both
digests in hex, before any write or extraction; on a match the bytes are
extracted or written to the output. -/
def downloadAndUse (cfg : AppCfg) (w : World) (version : VersionRecord)
    (output : String) : List Ev × Except Failure Outcome :=
  match w.url version.name version.vers with
  | none => ([], .error .missingUrl)
  | some u =>
    let data := (fetchData w u).2
    if sha256 data ≠ version.checksum then
      ([], .error (.loggedBadChecksum (hexEncode version.checksum)
        (hexEncode (sha256 data))))
    else if cfg.extract then
      let done := unpack version (w.entriesOf data) (pathComps output)
      match done.2 with
      | .ok _ => (done.1, .ok (.extracted output))
      | .error e => (done.1, .error (.unpackFailed e))
    else ([Ev.writeFile output data], .ok (.written output))

/-- The cache-hit branch: extract the cached file or copy it to the
output. -/
def useCached (cfg : AppCfg) (w : World) (version : VersionRecord)
    (path : List String) (output : String) : List Ev × Except Failure Outcome :=
  if cfg.extract then
    let bytes := (getFile w path).getD []
    let done := unpack version (w.entriesOf bytes) (pathComps output)
    match done.2 with
    | .ok _ => (done.1, .ok (.extracted output))
    | .error e => (done.1, .error (.unpackFailed e))
  else ([Ev.copyFile path output], .ok (.written output))

/-- One spec's pipeline (the per-spec thread body of App::run): look the
crate up in the index, select a version (the absent requirement standing
for star), on no match fail with the yanked hint; derive the output name;
probe the cache unless disabled; use the cached file on a hit, and on any
cache error (disabled, bad structure, missing file, checksum mismatch)
fall back to the network download. -/
def acquire (cfg : AppCfg) (w : World) (spec : PackageIdSpec) :
    List Ev × Except Failure Outcome :=
  match w.krate with
  | none => ([], .error .loggedNotFound)
  | some krate =>
    let req := spec.version_req.getD VersionReq.star
    match selectVersion krate req cfg.allow_yanked with
    | none =>
      ([], .error (.loggedNoMatch (noMatchMsg (selectYanked krate req))))
    | some (_, version) =>
      let output := outputName cfg version
      let cached :=
        if cfg.cache then cache_lookup w version
        else Except.error "cache disabled by flag"
      match cached with
      | .ok path => useCached cfg w version path output
      | .error _ => downloadAndUse cfg w version output

/-! ## The orchestrator (main.rs, App::run, spawn and join) -/

/-- The independent per-spec pipelines: one run per requested spec, each a
function of its own spec and world only. -/
def runSpecs (cfg : AppCfg) (jobs : List (World × PackageIdSpec)) :
    List (List Ev × Except Failure Outcome) :=
  jobs.map (fun j => acquire cfg j.1 j.2)

/-- The join loop over per-spec results: an already-logged failure sets a
flag and the loop continues; any other failure is rethrown at once; at the
end the flag, if set, fails the run.  True means the process exits zero. -/
def aggregateOk : List (Except Failure Outcome) → Bool → Bool
  | [], flag => !flag
  | .ok _ :: rest, flag => aggregateOk rest flag
  | .error e :: rest, flag =>
    if e.isLogged then aggregateOk rest true else false

/-- Overall success of a run: the multi-crate output check, then the
aggregation of every spec's outcome. -/
def runOk (cfg : AppCfg) (jobs : List (World × PackageIdSpec)) : Bool :=
  if decide (1 < jobs.length) && cfg.output.isSome then false
  else aggregateOk ((runSpecs cfg jobs).map Prod.snd) false

/-! ## Helper lemmas -/

theorem ordering_swap_eq_gt {o : Ordering} : o.swap = .gt ↔ o = .lt := by
  cases o <;> simp [Ordering.swap]

theorem insertByCmp_ne_nil {c : α → α → Ordering} {x : α} {l : List α} :
    insertByCmp c x l ≠ [] := by
  cases l with
  | nil => simp [insertByCmp]
  | cons y ys => cases hc : c x y <;> simp [insertByCmp, hc]

theorem sortByCmp_eq_nil_iff {c : α → α → Ordering} {l : List α} :
    sortByCmp c l = [] ↔ l = [] := by
  cases l with
  | nil => simp [sortByCmp]
  | cons x xs => simp [sortByCmp, insertByCmp_ne_nil]

theorem mem_candidateList {records : List VersionRecord} {req : VersionReq}
    {ay : Bool} {n : SemVersion} {v : VersionRecord} :
    (n, v) ∈ candidateList records req ay ↔
      v ∈ records ∧ (ay || !v.yanked) = true ∧
        parseSemVersion v.vers = some n ∧ matchesReq req n = true := by
  unfold candidateList
  constructor
  · intro h
    rw [List.mem_filter] at h
    obtain ⟨h1, hq⟩ := h
    rw [List.mem_filterMap] at h1
    obtain ⟨a, ha, hfa⟩ := h1
    rw [List.mem_filter] at ha
    cases hp : parseSemVersion a.vers with
    | none => rw [hp] at hfa; simp at hfa
    | some m =>
      rw [hp] at hfa
      simp only [Option.map_some'] at hfa
      obtain ⟨hm, hv⟩ := Prod.mk.injEq .. ▸ (Option.some.injEq .. ▸ hfa)
      subst hm; subst hv
      exact ⟨ha.1, ha.2, hp, hq⟩
  · intro ⟨h1, h2, h3, h4⟩
    rw [List.mem_filter]
    refine ⟨?_, h4⟩
    rw [List.mem_filterMap]
    exact ⟨v, List.mem_filter.mpr ⟨h1, h2⟩, by rw [h3]; rfl⟩

theorem mem_yankedCandidateList {records : List VersionRecord} {req : VersionReq}
    {n : SemVersion} {v : VersionRecord} :
    (n, v) ∈ yankedCandidateList records req ↔
      v ∈ records ∧ v.yanked = true ∧
        parseSemVersion v.vers = some n ∧ matchesReq req n = true := by
  unfold yankedCandidateList
  constructor
  · intro h
    rw [List.mem_filter] at h
    obtain ⟨h1, hq⟩ := h
    rw [List.mem_filterMap] at h1
    obtain ⟨a, ha, hfa⟩ := h1
    rw [List.mem_filter] at ha
    cases hp : parseSemVersion a.vers with
    | none => rw [hp] at hfa; simp at hfa
    | some m =>
      rw [hp] at hfa
      simp only [Option.map_some'] at hfa
      obtain ⟨hm, hv⟩ := Prod.mk.injEq .. ▸ (Option.some.injEq .. ▸ hfa)
      subst hm; subst hv
      exact ⟨ha.1, ha.2, hp, hq⟩
  · intro ⟨h1, h2, h3, h4⟩
    rw [List.mem_filter]
    refine ⟨?_, h4⟩
    rw [List.mem_filterMap]
    exact ⟨v, List.mem_filter.mpr ⟨h1, h2⟩, by rw [h3]; rfl⟩

theorem selectVersion_mem {records : List VersionRecord} {req : VersionReq}
    {ay : Bool} {n : SemVersion} {v : VersionRecord}
    (h : selectVersion records req ay = some (n, v)) :
    (n, v) ∈ candidateList records req ay := by
  unfold selectVersion at h
  obtain ⟨ys, hys⟩ := List.head?_eq_some_iff.mp h
  have : (n, v) ∈ sortByCmp sortCmp (candidateList records req ay) := by
    rw [hys]; exact List.mem_cons_self ..
  exact mem_sortByCmp.mp this

theorem selectVersion_max {records : List VersionRecord} {req : VersionReq}
    {ay : Bool} {n : SemVersion} {v : VersionRecord}
    (h : selectVersion records req ay = some (n, v)) :
    ∀ m w, (m, w) ∈ candidateList records req ay → versionCmp n m ≠ .lt := by
  intro m w hmem
  have hle := sortByCmp_head_le (c := sortCmp) h (m, w) hmem
  unfold sortCmp at hle
  intro hlt
  exact hle (ordering_swap_eq_gt.mpr hlt)

theorem selectYanked_mem {records : List VersionRecord} {req : VersionReq}
    {n : SemVersion} {v : VersionRecord}
    (h : selectYanked records req = some (n, v)) :
    (n, v) ∈ yankedCandidateList records req := by
  unfold selectYanked at h
  obtain ⟨ys, hys⟩ := List.head?_eq_some_iff.mp h
  have : (n, v) ∈ sortByCmp sortCmp (yankedCandidateList records req) := by
    rw [hys]; exact List.mem_cons_self ..
  exact mem_sortByCmp.mp this

theorem parentPath_append_ne_nil {out r : List PathC} (h : out ≠ []) :
    parentPath (out ++ r) = some (out ++ r).dropLast := by
  obtain ⟨o, os, rfl⟩ := List.exists_cons_of_ne_nil h
  rfl

theorem unpackEntries_all_good {base : String} {out : List PathC} (hout : out ≠ []) :
    ∀ {entries : List (List PathC)}, (∀ p ∈ entries, goodEntry base p = true) →
      unpackEntries base out entries =
        (entries.flatMap (goodEntryEvents base out), .ok ()) := by
  intro entries
  induction entries with
  | nil => intro _; rfl
  | cons p rest ih =>
    intro h
    have hp := h p (List.mem_cons_self ..)
    unfold goodEntry at hp
    rw [Bool.and_eq_true, Bool.not_eq_true'] at hp
    obtain ⟨huns, hsome⟩ := hp
    obtain ⟨r, hr⟩ := Option.isSome_iff_exists.mp hsome
    have hrest := ih (fun q hq => h q (List.mem_cons_of_mem _ hq))
    unfold unpackEntries
    rw [huns]
    simp only [Bool.false_eq_true, if_false, hr, parentPath_append_ne_nil hout, hrest]
    rw [List.flatMap_cons]
    unfold goodEntryEvents
    rw [hr]
    rfl

theorem unpackEntries_prefix_error {base : String} {out : List PathC} (hout : out ≠ [])
    {l₂ : List (List PathC)} {err : UnpackErr}
    (h₂ : unpackEntries base out l₂ = ([], .error err)) :
    ∀ {pre : List (List PathC)}, (∀ p ∈ pre, goodEntry base p = true) →
      unpackEntries base out (pre ++ l₂) =
        (pre.flatMap (goodEntryEvents base out), .error err) := by
  intro pre
  induction pre with
  | nil => intro _; simpa using h₂
  | cons p rest ih =>
    intro h
    have hp := h p (List.mem_cons_self ..)
    unfold goodEntry at hp
    rw [Bool.and_eq_true, Bool.not_eq_true'] at hp
    obtain ⟨huns, hsome⟩ := hp
    obtain ⟨r, hr⟩ := Option.isSome_iff_exists.mp hsome
    have hrest := ih (fun q hq => h q (List.mem_cons_of_mem _ hq))
    show unpackEntries base out (p :: (rest ++ l₂)) = _
    unfold unpackEntries
    rw [huns]
    simp only [Bool.false_eq_true, if_false, hr, parentPath_append_ne_nil hout, hrest]
    rw [List.flatMap_cons]
    unfold goodEntryEvents
    rw [hr]
    rfl

theorem aggregateOk_true_iff :
    ∀ (results : List (Except Failure Outcome)) (flag : Bool),
      aggregateOk results flag = true ↔
        (flag = false ∧ ∀ r ∈ results, ∃ o, r = .ok o) := by
  intro results
  induction results with
  | nil => intro flag; cases flag <;> simp [aggregateOk]
  | cons r rest ih =>
    intro flag
    cases r with
    | ok o => simp [aggregateOk, ih]
    | error e =>
      cases hE : e.isLogged <;> simp [aggregateOk, hE, ih]

deriving instance DecidableEq for Except

theorem findBadChar_spec (alnum : Char → Bool) :
    ∀ (l : List Char) (i : Nat),
      (findBadCharP alnum i l = none → l.all (nameCharOkP alnum) = true) ∧
      (∀ c j, findBadCharP alnum i l = some (c, j) →
        i ≤ j ∧ l.get? (j - i) = some c ∧ nameCharOkP alnum c = false ∧
          ∀ k, k < j - i → ∃ d, l.get? k = some d ∧ nameCharOkP alnum d = true) := by
  intro l
  induction l with
  | nil =>
    intro i
    exact ⟨fun _ => rfl, fun c j h => by simp [findBadCharP] at h⟩
  | cons a rest ih =>
    intro i
    cases ha : nameCharOkP alnum a with
    | true =>
      constructor
      · intro h
        simp only [findBadCharP, ha, Bool.not_true, Bool.false_eq_true, if_false] at h
        simp [List.all_cons, ha, (ih (i + 1)).1 h]
      · intro c j h
        simp only [findBadCharP, ha, Bool.not_true, Bool.false_eq_true, if_false] at h
        obtain ⟨hij, hget, hbad, hprev⟩ := (ih (i + 1)).2 c j h
        refine ⟨by omega, ?_, hbad, ?_⟩
        · have hji : j - i = (j - (i + 1)) + 1 := by omega
          rw [hji]
          simpa using hget
        · intro k hk
          cases k with
          | zero => exact ⟨a, rfl, ha⟩
          | succ k' =>
            have hk' : k' < j - (i + 1) := by omega
            obtain ⟨d, hd1, hd2⟩ := hprev k' hk'
            exact ⟨d, by simpa using hd1, hd2⟩
    | false =>
      constructor
      · intro h
        simp [findBadCharP, ha] at h
      · intro c j h
        simp only [findBadCharP, ha, Bool.not_false, if_true, Option.some.injEq,
          Prod.mk.injEq] at h
        obtain ⟨hc, hj⟩ := h
        subst hc; subst hj
        exact ⟨Nat.le_refl i, by simp, ha, fun k hk => by omega⟩

theorem crateNameFromStrP_ok {alnum : Char → Bool} {s : String} {n : CrateName}
    (h : crateNameFromStrP alnum s = .ok n) : n = ⟨s⟩ := by
  unfold crateNameFromStrP at h
  cases hf : findBadCharP alnum 0 s.data with
  | some p => rw [hf] at h; exact absurd h (by simp)
  | none =>
    rw [hf] at h
    exact (Except.ok.injEq .. ▸ h).symm

theorem crateNameFromStr_ok {s : String} {n : CrateName}
    (h : crateNameFromStr s = .ok n) : n = ⟨s⟩ :=
  crateNameFromStrP_ok h

/-- Claim C5 (amended): crate-name parsing — its character test
char::is_alphanumeric taken as an explicit parameter, the statement
holding uniformly in it and so in particular at the standard library's
Unicode-wide predicate — succeeds exactly for the strings (the empty
string included) all of whose characters pass the test or are a hyphen or
an underscore; a successful parse wraps the input unchanged and formatting
returns it, so parsing round-trips; for any other string it fails with
InvalidCharacter carrying the first offending character and its index,
every earlier character being acceptable. -/
theorem C5_crate_name_parse (alnum : Char → Bool) (s : String) :
    (∀ n, crateNameFromStrP alnum s = .ok n → n = ⟨s⟩ ∧ crateNameDisplay n = s) ∧
    ((crateNameFromStrP alnum s).isOk = s.data.all (nameCharOkP alnum)) ∧
    (∀ c i, crateNameFromStrP alnum s = .error (.invalidCharacter c i) →
      s.data.get? i = some c ∧ nameCharOkP alnum c = false ∧
        ∀ j, j < i → ∃ d, s.data.get? j = some d ∧ nameCharOkP alnum d = true) := by
  have hspec := findBadChar_spec alnum s.data 0
  refine ⟨?_, ?_, ?_⟩
  · intro n h
    have hn := crateNameFromStrP_ok h
    exact ⟨hn, by rw [hn]; rfl⟩
  · cases hf : findBadCharP alnum 0 s.data with
    | none =>
      unfold crateNameFromStrP
      rw [hf, hspec.1 hf]
      rfl
    | some p =>
      obtain ⟨c, j⟩ := p
      have h2 := hspec.2 c j hf
      have hmem : c ∈ s.data := List.get?_mem h2.2.1
      have hall : s.data.all (nameCharOkP alnum) = false := by
        cases hall : s.data.all (nameCharOkP alnum) with
        | false => rfl
        | true => exact absurd (List.all_eq_true.mp hall c hmem) (by simp [h2.2.2.1])
      unfold crateNameFromStrP
      rw [hf, hall]
      rfl
  · intro c i h
    unfold crateNameFromStrP at h
    cases hf : findBadCharP alnum 0 s.data with
    | none => rw [hf] at h; exact absurd h (by simp)
    | some p =>
      rw [hf] at h
      obtain ⟨c', j'⟩ := p
      simp only [Except.error.injEq, CrateNameError.invalidCharacter.injEq] at h
      obtain ⟨hc1, hc2⟩ := h
      rw [hc1, hc2] at hf
      have h2 := hspec.2 c i hf
      refine ⟨by simpa using h2.2.1, h2.2.2.1, ?_⟩
      intro j hj
      obtain ⟨d, hd1, hd2⟩ := h2.2.2.2 j (by omega)
      exact ⟨d, hd1, hd2⟩

/-- The character class of the claim, stated from the spec's words: the
anchored regex of one or more ASCII alphanumerics, hyphens and
underscores. -/
def asciiNameMatch (s : String) : Bool :=
  !s.isEmpty && s.data.all (fun c => c.isAlpha || c.isDigit || c == '-' || c == '_')

/-- Claim C5, counterexample: the parser accepts the empty string whatever
the alphanumeric test returns, and accepts a string with a non-ASCII
letter under any test true at é — char::is_alphanumeric is, é being a
lowercase letter of the Latin-1 block where the tabulated restriction is
exact — while both strings fail the claim's regex; the accepted names
format back to the inputs. -/
theorem C5_crate_name_counterexample :
    (∀ alnum, crateNameFromStrP alnum "" = .ok ⟨""⟩) ∧
    asciiNameMatch "" = false ∧
    latin1_alphanumeric 'é' = true ∧
    crateNameFromStr "café" = .ok ⟨"café"⟩ ∧
    asciiNameMatch "café" = false ∧
    crateNameDisplay ⟨""⟩ = "" ∧
    crateNameDisplay ⟨"café"⟩ = "café" := by
  exact ⟨fun alnum => rfl, by decide, by decide, by decide, by decide, rfl, rfl⟩

/-- Claim C5, witness: the amended theorem applied, at the Latin-1
restriction of the character test, to an accepted and to a rejected
concrete name. -/
theorem C5_crate_name_witness :
    (crateNameFromStrP latin1_alphanumeric "ab_c-9").isOk = true ∧
    crateNameDisplay ⟨"ab_c-9"⟩ = "ab_c-9" ∧
    "a!b".data.get? 1 = some '!' ∧
    nameCharOkP latin1_alphanumeric '!' = false ∧
    (∃ d, "a!b".data.get? 0 = some d ∧
      nameCharOkP latin1_alphanumeric d = true) := by
  have h1 := C5_crate_name_parse latin1_alphanumeric "ab_c-9"
  have h2 := C5_crate_name_parse latin1_alphanumeric "a!b"
  have herr := h2.2.2 '!' 1 (by decide)
  refine ⟨?_, ?_, herr.1, herr.2.1, herr.2.2 0 (by decide)⟩
  · rw [h1.2.1]; decide
  · exact (h1.1 ⟨"ab_c-9"⟩ (by decide)).2

theorem splitAtFirstAtSign_none_iff {l : List Char} :
    splitAtFirstAtSign l = none ↔ '@' ∉ l := by
  induction l with
  | nil => simp [splitAtFirstAtSign]
  | cons c cs ih =>
    by_cases hc : c = '@'
    · subst hc; simp [splitAtFirstAtSign]
    · simp only [splitAtFirstAtSign, if_neg hc, Option.map_eq_none', ih, List.mem_cons]
      constructor
      · intro h hmem
        rcases hmem with h' | h'
        · exact hc h'.symm
        · exact h h'
      · intro h hmem
        exact h (Or.inr hmem)

theorem splitAtFirstAtSign_some_eq {l l₁ l₂ : List Char}
    (h : splitAtFirstAtSign l = some (l₁, l₂)) :
    l = l₁ ++ '@' :: l₂ ∧ '@' ∉ l₁ := by
  induction l generalizing l₁ l₂ with
  | nil => simp [splitAtFirstAtSign] at h
  | cons c cs ih =>
    by_cases hc : c = '@'
    · subst hc
      rw [show splitAtFirstAtSign ('@' :: cs) = some ([], cs) from by
        simp [splitAtFirstAtSign]] at h
      simp only [Option.some.injEq, Prod.mk.injEq] at h
      obtain ⟨h1, h2⟩ := h
      subst h1; subst h2
      simp
    · rw [show splitAtFirstAtSign (c :: cs) =
          (splitAtFirstAtSign cs).map (fun p => (c :: p.1, p.2)) from by
        simp [splitAtFirstAtSign, hc]] at h
      cases hcs : splitAtFirstAtSign cs with
      | none => rw [hcs] at h; simp at h
      | some q =>
        rw [hcs] at h
        obtain ⟨q₁, q₂⟩ := q
        simp only [Option.map_some', Option.some.injEq, Prod.mk.injEq] at h
        obtain ⟨he1, he2⟩ := h
        subst he1; subst he2
        obtain ⟨hcs2, hnot⟩ := ih hcs
        constructor
        · rw [List.cons_append, hcs2]
        · intro hmem
          rcases List.mem_cons.mp hmem with h' | h'
          · exact hc h'.symm
          · exact hnot h'

/-- Claim C6 (amended): a token without an at-sign that parses round-trips
exactly through formatting; a token with an at-sign that parses formats
back as the name, the at-sign, and the semver crate's canonical rendering
of the parsed constraint — which need not reproduce the constraint
substring as written (a bare version renders with its default caret). -/
theorem C6_spec_round_trip (s : String) :
    (∀ p, packageIdSpecFromStr s = .ok p → p.version_req = none →
      splitAtFirstAtSign s.data = none ∧ packageIdSpecDisplay p = s) ∧
    (∀ p l r, packageIdSpecFromStr s = .ok p → splitAtFirstAtSign s.data = some (l, r) →
      s.data = l ++ '@' :: r ∧ p.name.val = String.mk l ∧
        ∃ vr, parseVersionReq (String.mk r) = some vr ∧ p.version_req = some vr ∧
          packageIdSpecDisplay p = String.mk l ++ "@" ++ reqDisplay vr) := by
  constructor
  · intro p h hnone
    cases hs : splitAtFirstAtSign s.data with
    | some q =>
      obtain ⟨l, r⟩ := q
      exfalso
      cases hn : crateNameFromStr (String.mk l) with
      | error e => simp [packageIdSpecFromStr, hs, hn] at h
      | ok n =>
        cases hv : parseVersionReq (String.mk r) with
        | none => simp [packageIdSpecFromStr, hs, hn, hv] at h
        | some vr =>
          simp only [packageIdSpecFromStr, hs, hn, hv, Except.ok.injEq] at h
          rw [← h] at hnone
          exact absurd hnone (by simp)
    | none =>
      cases hn : crateNameFromStr s with
      | error e => simp [packageIdSpecFromStr, hs, hn] at h
      | ok n =>
        simp only [packageIdSpecFromStr, hs, hn, Except.ok.injEq] at h
        have hns := crateNameFromStr_ok hn
        refine ⟨rfl, ?_⟩
        rw [← h, hns]
        rfl
  · intro p l r h hs
    cases hn : crateNameFromStr (String.mk l) with
    | error e => simp [packageIdSpecFromStr, hs, hn] at h
    | ok n =>
      cases hv : parseVersionReq (String.mk r) with
      | none => simp [packageIdSpecFromStr, hs, hn, hv] at h
      | some vr =>
        simp only [packageIdSpecFromStr, hs, hn, hv, Except.ok.injEq] at h
        have hns := crateNameFromStr_ok hn
        refine ⟨(splitAtFirstAtSign_some_eq hs).1, ?_, vr, ?_, ?_, ?_⟩
        · rw [← h, hns]
        · rfl
        · rw [← h]
        · rw [← h, hns]
          rfl

/-- Claim C6, counterexample: the token a@1 parses, but formatting the
parsed spec yields a@^1 (the semver crate renders the default operator as
a caret), not the original token. -/
theorem C6_spec_round_trip_counterexample :
    packageIdSpecFromStr "a@1" =
      .ok ⟨⟨"a"⟩, some ⟨[⟨ReqOp.caret, 1, none, none, []⟩]⟩⟩ ∧
    packageIdSpecDisplay ⟨⟨"a"⟩, some ⟨[⟨ReqOp.caret, 1, none, none, []⟩]⟩⟩ = "a@^1" ∧
    ("a@^1" = "a@1") = False := by
  refine ⟨by decide, by decide, by simp⟩

/-- Claim C6, witness: the amended theorem applied to a constraint-free
token and to a token whose constraint renders canonically. -/
theorem C6_spec_round_trip_witness :
    packageIdSpecDisplay ⟨⟨"serde"⟩, none⟩ = "serde" ∧
    (∃ vr, parseVersionReq "1.2.3" = some vr ∧
      packageIdSpecDisplay ⟨⟨"foo"⟩, some vr⟩ = "foo" ++ "@" ++ reqDisplay vr) := by
  have h1 := (C6_spec_round_trip "serde").1 ⟨⟨"serde"⟩, none⟩ (by decide) rfl
  have h2 := (C6_spec_round_trip "foo@1.2.3").2 ⟨⟨"foo"⟩,
    some ⟨[⟨ReqOp.caret, 1, some 2, some 3, []⟩]⟩⟩ "foo".data "1.2.3".data
    (by decide) (by decide)
  obtain ⟨-, -, vr, hvr, hreq, hdisp⟩ := h2
  have hv2 : (⟨[⟨ReqOp.caret, 1, some 2, some 3, []⟩]⟩ : VersionReq) = vr :=
    Option.some.inj hreq
  subst hv2
  exact ⟨h1.2, _, hvr, hdisp⟩

/-- Claim C1: for every archive entry whose path contains a
parent-directory, root or drive/prefix component, extraction aborts with a
fatal error naming the offending path, writing nothing for that entry (or
any later one), while entries already processed keep their effects — no
rollback; and every well-formed entry is unpacked at the destination
joined with its name-version-prefix-stripped path, the destination parent
directories created first. -/
theorem C1_unpack_path_safety (v : VersionRecord) (out : List PathC) (hout : out ≠ []) :
    (∀ pre bad rest, (∀ p ∈ pre, goodEntry (v.name ++ "-" ++ v.vers) p = true) →
      hasUnsafeComponent bad = true →
      unpack v (pre ++ bad :: rest) out =
        (Ev.createDirAll out ::
          pre.flatMap (goodEntryEvents (v.name ++ "-" ++ v.vers) out),
         .error (.unsafeEntry (unsafeMsg bad)))) ∧
    (∀ entries, (∀ p ∈ entries, goodEntry (v.name ++ "-" ++ v.vers) p = true) →
      unpack v entries out =
        (Ev.createDirAll out ::
          entries.flatMap (goodEntryEvents (v.name ++ "-" ++ v.vers) out), .ok ())) ∧
    (∀ p r, stripBaseDir (v.name ++ "-" ++ v.vers) p = some r →
      goodEntryEvents (v.name ++ "-" ++ v.vers) out p =
        [Ev.createDirAll (out ++ r).dropLast, Ev.unpackFile (out ++ r)]) := by
  refine ⟨?_, ?_, ?_⟩
  · intro pre bad rest hpre hbad
    have hb : unpackEntries (v.name ++ "-" ++ v.vers) out (bad :: rest) =
        ([], .error (.unsafeEntry (unsafeMsg bad))) := by
      unfold unpackEntries
      rw [hbad]
      rfl
    simp only [unpack]
    rw [unpackEntries_prefix_error hout hb hpre]
  · intro entries h
    simp only [unpack]
    rw [unpackEntries_all_good hout h]
  · intro p r hr
    unfold goodEntryEvents
    rw [hr]

/-- The version used in the concrete extraction scenarios. -/
def vPkgW : VersionRecord :=
  { name := "pkg", vers := "1.0.0", checksum := [], yanked := false }

/-- Claim C1, witness: the well-formed entry of the claim is written to
dest/src/lib.rs with its parent created first; adding a traversal entry
afterwards aborts with the error naming it while the first entry's effects
stay. -/
theorem C1_unpack_path_safety_witness :
    unpack vPkgW [pathComps "pkg-1.0.0/src/lib.rs"] (pathComps "dest") =
      ([Ev.createDirAll [PathC.normal "dest"],
        Ev.createDirAll [PathC.normal "dest", PathC.normal "src"],
        Ev.unpackFile [PathC.normal "dest", PathC.normal "src", PathC.normal "lib.rs"]],
       .ok ()) ∧
    unpack vPkgW [pathComps "pkg-1.0.0/src/lib.rs", pathComps "../../etc/passwd"]
        (pathComps "dest") =
      ([Ev.createDirAll [PathC.normal "dest"],
        Ev.createDirAll [PathC.normal "dest", PathC.normal "src"],
        Ev.unpackFile [PathC.normal "dest", PathC.normal "src", PathC.normal "lib.rs"]],
       .error (.unsafeEntry
         "a file in the archive (../../etc/passwd) contains a .. or root segment")) := by
  have h := C1_unpack_path_safety vPkgW (pathComps "dest") (by decide)
  constructor
  · exact (h.2.1 [pathComps "pkg-1.0.0/src/lib.rs"] (by decide)).trans (by decide)
  · exact (h.1 [pathComps "pkg-1.0.0/src/lib.rs"] (pathComps "../../etc/passwd") []
      (by decide) (by decide)).trans (by decide)

/-- Claim C10: an entry that passes the unsafe-component check but whose
path does not start with the expected name-version prefix fails the
strip_prefix call, whose question-mark operator aborts the whole unpack at
that entry with an error; prior entries' effects are kept. -/
theorem C10_unpack_base_required (v : VersionRecord) (out : List PathC)
    (hout : out ≠ []) :
    ∀ pre e rest, (∀ p ∈ pre, goodEntry (v.name ++ "-" ++ v.vers) p = true) →
      hasUnsafeComponent e = false →
      stripBaseDir (v.name ++ "-" ++ v.vers) e = none →
      unpack v (pre ++ e :: rest) out =
        (Ev.createDirAll out ::
          pre.flatMap (goodEntryEvents (v.name ++ "-" ++ v.vers) out),
         .error .stripFailed) := by
  intro pre e rest hpre hsafe hstrip
  have hb : unpackEntries (v.name ++ "-" ++ v.vers) out (e :: rest) =
      ([], .error .stripFailed) := by
    unfold unpackEntries
    rw [hsafe, hstrip]
    rfl
  simp only [unpack]
  rw [unpackEntries_prefix_error hout hb hpre]

/-- Claim C10, witness: a safe entry under the wrong top-level directory
aborts the unpack with the strip-prefix error, after a good entry was
already processed. -/
theorem C10_unpack_base_required_witness :
    unpack vPkgW [pathComps "pkg-1.0.0/src/lib.rs", pathComps "other-2.0.0/file"]
        (pathComps "dest") =
      ([Ev.createDirAll [PathC.normal "dest"],
        Ev.createDirAll [PathC.normal "dest", PathC.normal "src"],
        Ev.unpackFile [PathC.normal "dest", PathC.normal "src", PathC.normal "lib.rs"]],
       .error .stripFailed) := by
  have h := C10_unpack_base_required vPkgW (pathComps "dest") (by decide)
    [pathComps "pkg-1.0.0/src/lib.rs"] (pathComps "other-2.0.0/file") []
    (by decide) (by decide) (by decide)
  exact h.trans (by decide)

theorem candidateList_skip {l₁ l₂ : List VersionRecord} {bad : VersionRecord}
    {req : VersionReq} {ay : Bool} (hbad : parseSemVersion bad.vers = none) :
    candidateList (l₁ ++ bad :: l₂) req ay = candidateList (l₁ ++ l₂) req ay := by
  unfold candidateList
  rw [List.filter_append, List.filter_append, List.filter_cons]
  cases hy : (ay || !bad.yanked) with
  | false => simp
  | true => simp [List.filterMap_append, List.filterMap_cons, hbad]

/-- Claim C2 (amended): the resolver never selects a yanked version unless
allow-yanked is set; the selected version parses from its record, matches
the requirement (the absent constraint standing for star, which excludes
pre-releases), and is precedence-maximal among all allowed, parseable,
matching records; selection is empty exactly when the candidate list is;
and a record whose version string fails semver parsing is skipped — removing
it does not change the selection, and the resolver returns instead of
failing. -/
theorem C2_resolver_selection (records : List VersionRecord) (req : VersionReq)
    (ay : Bool) :
    (∀ n v, selectVersion records req ay = some (n, v) →
      v ∈ records ∧ (ay = true ∨ v.yanked = false) ∧
        parseSemVersion v.vers = some n ∧ matchesReq req n = true ∧
        ∀ w m, w ∈ records → (ay = true ∨ w.yanked = false) →
          parseSemVersion w.vers = some m → matchesReq req m = true →
          precCmp n m ≠ .lt) ∧
    (selectVersion records req ay = none ↔ candidateList records req ay = []) ∧
    (∀ l₁ l₂ bad, records = l₁ ++ bad :: l₂ → parseSemVersion bad.vers = none →
      selectVersion records req ay = selectVersion (l₁ ++ l₂) req ay) := by
  refine ⟨?_, ?_, ?_⟩
  · intro n v hsel
    have hmem := selectVersion_mem hsel
    rw [mem_candidateList] at hmem
    obtain ⟨h1, h2, h3, h4⟩ := hmem
    refine ⟨h1, ?_, h3, h4, ?_⟩
    · rcases Bool.or_eq_true .. |>.mp h2 with h | h
      · exact Or.inl h
      · exact Or.inr (Bool.not_eq_true' .. |>.mp h)
    · intro w m hw hwy hwp hwm
      have hcand : (m, w) ∈ candidateList records req ay := by
        rw [mem_candidateList]
        refine ⟨hw, ?_, hwp, hwm⟩
        rcases hwy with h | h
        · simp [h]
        · simp [h]
      intro hlt
      exact selectVersion_max hsel m w hcand (by unfold versionCmp; rw [hlt]; rfl)
  · unfold selectVersion
    rw [List.head?_eq_none_iff, sortByCmp_eq_nil_iff]
  · intro l₁ l₂ bad hrec hbad
    subst hrec
    unfold selectVersion
    rw [candidateList_skip hbad]

/-- The registry record of the resolver counterexample: a sole non-yanked
pre-release version. -/
def recBetaC2 : VersionRecord :=
  { name := "foo", vers := "1.0.0-beta", checksum := [], yanked := false }

/-- Claim C2, counterexample: with no constraint the code uses the star
requirement, which no pre-release matches, so a registry whose only entry
is the non-yanked, semver-valid 1.0.0-beta resolves to no selection —
against the claim's match-any reading, under which the sole candidate's
maximum would be selected. -/
theorem C2_resolver_selection_counterexample :
    recBetaC2.yanked = false ∧
    parseSemVersion recBetaC2.vers = some ⟨1, 0, 0, ["beta"], ""⟩ ∧
    matchesReq VersionReq.star ⟨1, 0, 0, ["beta"], ""⟩ = false ∧
    selectVersion [recBetaC2] VersionReq.star false = none := by
  refine ⟨rfl, by decide, by decide, by decide⟩

/-- Record 1.1.0 of the resolver witness registry. -/
def rec110C2 : VersionRecord :=
  { name := "foo", vers := "1.1.0", checksum := [], yanked := false }

/-- The non-semver record of the resolver witness registry. -/
def recAbcC2 : VersionRecord :=
  { name := "foo", vers := "abc", checksum := [], yanked := false }

/-- The yanked record of the resolver witness registry. -/
def rec300C2 : VersionRecord :=
  { name := "foo", vers := "3.0.0", checksum := [], yanked := true }

/-- Record 1.2.0 of the resolver witness registry. -/
def rec120C2 : VersionRecord :=
  { name := "foo", vers := "1.2.0", checksum := [], yanked := false }

/-- The resolver witness registry. -/
def recsC2 : List VersionRecord := [rec110C2, recAbcC2, rec300C2, rec120C2]

/-- Claim C2, witness: over a registry with 1.1.0, a non-semver entry, a
yanked 3.0.0 and 1.2.0, the star selection is 1.2.0 — not yanked, parsed,
matching and precedence-maximal — and dropping the non-semver entry does
not change the selection. -/
theorem C2_resolver_selection_witness :
    (false = true ∨ rec120C2.yanked = false) ∧
    parseSemVersion rec120C2.vers = some ⟨1, 2, 0, [], ""⟩ ∧
    matchesReq VersionReq.star ⟨1, 2, 0, [], ""⟩ = true ∧
    precCmp ⟨1, 2, 0, [], ""⟩ ⟨1, 1, 0, [], ""⟩ ≠ .lt ∧
    selectVersion recsC2 VersionReq.star false =
      selectVersion [rec110C2, rec300C2, rec120C2] VersionReq.star false := by
  have h := C2_resolver_selection recsC2 VersionReq.star false
  have h1 := h.1 ⟨1, 2, 0, [], ""⟩ rec120C2 (by decide)
  refine ⟨h1.2.1, h1.2.2.1, h1.2.2.2.1, ?_, ?_⟩
  · exact h1.2.2.2.2 rec110C2 ⟨1, 1, 0, [], ""⟩ (by decide) (Or.inr rfl)
      (by decide) (by decide)
  · exact h.2.2 [rec110C2] [rec300C2, rec120C2] recAbcC2 rfl (by decide)

/-- Claim C7: when no allowed candidate matches, the pipeline fails with
the no-match message carrying, when the same filter restricted to yanked
versions has a match, an advisory hint naming that version's name and
version; the result is an error, never a selection. -/
theorem C7_yanked_hint (cfg : AppCfg) (w : World) (spec : PackageIdSpec)
    (krate : List VersionRecord) (hk : w.krate = some krate)
    (hsel : selectVersion krate (spec.version_req.getD VersionReq.star)
      cfg.allow_yanked = none) :
    acquire cfg w spec = ([], .error (.loggedNoMatch
      (noMatchMsg (selectYanked krate (spec.version_req.getD VersionReq.star))))) ∧
    (∀ n v, selectYanked krate (spec.version_req.getD VersionReq.star) = some (n, v) →
      v ∈ krate ∧ v.yanked = true ∧ parseSemVersion v.vers = some n ∧
        matchesReq (spec.version_req.getD VersionReq.star) n = true ∧
        noMatchMsg (selectYanked krate (spec.version_req.getD VersionReq.star)) =
          "no matching version found; the yanked version " ++ v.name ++ " " ++
            v.vers ++ " matched, use --allow-yanked to download it") ∧
    (∀ evs o, acquire cfg w spec ≠ (evs, .ok o)) := by
  have hacq : acquire cfg w spec = ([], .error (.loggedNoMatch
      (noMatchMsg (selectYanked krate (spec.version_req.getD VersionReq.star))))) := by
    simp only [acquire, hk, hsel]
  refine ⟨hacq, ?_, ?_⟩
  · intro n v hy
    have hmem := selectYanked_mem hy
    rw [mem_yankedCandidateList] at hmem
    obtain ⟨h1, h2, h3, h4⟩ := hmem
    refine ⟨h1, h2, h3, h4, ?_⟩
    rw [hy]
    rfl
  · intro evs o heq
    rw [hacq] at heq
    have := (Prod.mk.injEq .. ▸ heq).2
    exact absurd this (by simp)

/-- The world of the yanked-hint witness: a single yanked 1.0.0. -/
def wYankedC7 : World :=
  { krate := some [{ name := "foo", vers := "1.0.0", checksum := [], yanked := true }],
    indexPath := [], dirs := [], files := [],
    url := fun _ _ => none, net := fun _ => (none, []), entriesOf := fun _ => [] }

/-- Claim C7, witness: spec foo with only a yanked 1.0.0 and allow-yanked
unset resolves to no match, with the hint naming foo 1.0.0. -/
theorem C7_yanked_hint_witness :
    acquire { extract := false, output := none, allow_yanked := false, cache := false }
        wYankedC7 ⟨⟨"foo"⟩, none⟩ =
      ([], .error (.loggedNoMatch
        ("no matching version found; the yanked version foo 1.0.0 matched, " ++
          "use --allow-yanked to download it"))) ∧
    ({ name := "foo", vers := "1.0.0", checksum := [], yanked := true } :
      VersionRecord).yanked = true := by
  have h := C7_yanked_hint
    { extract := false, output := none, allow_yanked := false, cache := false }
    wYankedC7 ⟨⟨"foo"⟩, none⟩
    [{ name := "foo", vers := "1.0.0", checksum := [], yanked := true }]
    rfl (by decide)
  constructor
  · exact h.1.trans (by decide)
  · exact (h.2.1 ⟨1, 0, 0, [], ""⟩
      { name := "foo", vers := "1.0.0", checksum := [], yanked := true }
      (by decide)).2.1

/-- Claim C3: once a spec reaches the download branch (cache disabled or
cache probe failed), a downloaded buffer whose SHA-256 differs from the
version's expected checksum makes the pipeline fail for that spec with the
checksum report carrying both the expected and the computed digest in hex,
and no write, copy or extraction event whatsoever. -/
theorem C3_integrity_failure (cfg : AppCfg) (w : World) (spec : PackageIdSpec)
    (krate : List VersionRecord) (n : SemVersion) (version : VersionRecord)
    (u : String) (e : String)
    (hk : w.krate = some krate)
    (hsel : selectVersion krate (spec.version_req.getD VersionReq.star)
      cfg.allow_yanked = some (n, version))
    (hcache : (if cfg.cache then cache_lookup w version
      else Except.error "cache disabled by flag") = .error e)
    (hu : w.url version.name version.vers = some u)
    (hbad : sha256 (fetchData w u).2 ≠ version.checksum) :
    acquire cfg w spec = ([], .error (.loggedBadChecksum
      (hexEncode version.checksum) (hexEncode (sha256 (fetchData w u).2)))) := by
  simp only [acquire, hk, hsel, hcache]
  simp only [downloadAndUse, hu]
  rw [if_pos hbad]

/-- The version of the bad-checksum witness: its recorded checksum is all
zeroes, which the downloaded bytes do not hash to. -/
def verC3 : VersionRecord :=
  { name := "foo", vers := "1.0.0", checksum := List.replicate 32 0, yanked := false }

/-- The world of the bad-checksum witness. -/
def wC3 : World :=
  { krate := some [verC3], indexPath := [], dirs := [], files := [],
    url := fun _ _ => some "u", net := fun _ => (some 3, [1, 2, 3]),
    entriesOf := fun _ => [] }

set_option maxRecDepth 1000000 in
/-- Claim C3, witness: downloading three bytes against an all-zero expected
digest fails with both digests reported in hex and no filesystem event. -/
theorem C3_integrity_failure_witness :
    acquire { extract := false, output := none, allow_yanked := false, cache := false }
        wC3 ⟨⟨"foo"⟩, none⟩ =
      ([], .error (.loggedBadChecksum (hexEncode (List.replicate 32 0))
        (hexEncode (sha256 [1, 2, 3])))) := by
  have h := C3_integrity_failure
    { extract := false, output := none, allow_yanked := false, cache := false }
    wC3 ⟨⟨"foo"⟩, none⟩ [verC3] ⟨1, 0, 0, [], ""⟩ verC3 "u" "cache disabled by flag"
    rfl (by decide) rfl rfl (by decide)
  exact h

/-- Claim C4: a cache probe reports an entry valid only when the derived
cache file exists and its SHA-256 digest equals the expected checksum; and
any probe error whatsoever — bad cache structure, missing file, checksum
mismatch, or the probe being disabled — sends the pipeline into the network
download branch, whose result does not depend on the cache error, so a
cache failure is never the spec's terminal error. -/
theorem C4_cache_probe (w : World) :
    (∀ v path, cache_lookup w v = .ok path →
      ∃ bytes, getFile w path = some bytes ∧ sha256 bytes = v.checksum) ∧
    (∀ cfg spec krate n version e, w.krate = some krate →
      selectVersion krate (spec.version_req.getD VersionReq.star) cfg.allow_yanked =
        some (n, version) →
      (if cfg.cache then cache_lookup w version
        else Except.error "cache disabled by flag") = .error e →
      acquire cfg w spec = downloadAndUse cfg w version (outputName cfg version)) := by
  constructor
  · intro v path h
    cases hd : find_cache_dir w with
    | error e => simp [cache_lookup, hd] at h
    | ok dir =>
      cases hf : getFile w (dir ++ [v.name ++ "-" ++ v.vers ++ ".crate"]) with
      | none => simp [cache_lookup, hd, hf] at h
      | some bytes =>
        by_cases hsha : sha256 bytes = v.checksum
        · have hp : dir ++ [v.name ++ "-" ++ v.vers ++ ".crate"] = path := by
            simpa [cache_lookup, hd, hf, hsha] using h
          exact ⟨bytes, hp ▸ hf, hsha⟩
        · simp [cache_lookup, hd, hf, hsha] at h
  · intro cfg spec krate n version e hk hsel hcache
    simp only [acquire, hk, hsel, hcache]

/-- The version of the cache witness: its checksum is the digest of the
cached file's bytes. -/
def verC4 : VersionRecord :=
  { name := "foo", vers := "1.0.0", checksum := sha256 [9, 9], yanked := false }

/-- The world of the cache-hit witness: a well-formed registry layout with
the cache file present and matching. -/
def wC4 : World :=
  { krate := some [verC4],
    indexPath := ["home", "registry", "index", "github"],
    dirs := [["home", "registry", "cache", "github"]],
    files := [(["home", "registry", "cache", "github", "foo-1.0.0.crate"], [9, 9])],
    url := fun _ _ => some "u", net := fun _ => (none, [7]), entriesOf := fun _ => [] }

/-- The world of the cache-miss witness: same layout, file absent. -/
def wC4miss : World :=
  { krate := some [verC4],
    indexPath := ["home", "registry", "index", "github"],
    dirs := [["home", "registry", "cache", "github"]],
    files := [],
    url := fun _ _ => some "u", net := fun _ => (none, [7]), entriesOf := fun _ => [] }

set_option maxRecDepth 1000000 in
/-- Claim C4, witness: a present cache file validates against its digest,
and with the file missing the pipeline's result is the download branch's
result. -/
theorem C4_cache_probe_witness :
    (∃ bytes,
      getFile wC4 ["home", "registry", "cache", "github", "foo-1.0.0.crate"] =
        some bytes ∧ sha256 bytes = verC4.checksum) ∧
    acquire { extract := false, output := none, allow_yanked := false, cache := true }
        wC4miss ⟨⟨"foo"⟩, none⟩ =
      downloadAndUse
        { extract := false, output := none, allow_yanked := false, cache := true }
        wC4miss verC4 "foo-1.0.0.crate" := by
  constructor
  · exact (C4_cache_probe wC4).1 verC4
      ["home", "registry", "cache", "github", "foo-1.0.0.crate"] (by decide)
  · exact (C4_cache_probe wC4miss).2
      { extract := false, output := none, allow_yanked := false, cache := true }
      ⟨⟨"foo"⟩, none⟩ [verC4] ⟨1, 0, 0, [], ""⟩ verC4
      "cache file home/registry/cache/github/foo-1.0.0.crate does not exist"
      rfl (by decide) (by decide)

/-- Claim C8: the fetch reads at most CRATE_SIZE_LIMIT bytes of the
response body — a longer response is truncated at the cap, a response
within the cap is read whole — and the buffer capacity is exactly the
advertised content length when one is present and the cap otherwise. -/
theorem C8_fetch_size_cap (w : World) (u : String) :
    (fetchData w u).2 = (w.net u).2.take CRATE_SIZE_LIMIT ∧
    (fetchData w u).2.length ≤ CRATE_SIZE_LIMIT ∧
    ((w.net u).2.length ≤ CRATE_SIZE_LIMIT → (fetchData w u).2 = (w.net u).2) ∧
    (fetchData w u).1 = (match (w.net u).1 with
      | some len => len
      | none => CRATE_SIZE_LIMIT) := by
  cases hn : w.net u with
  | mk cl body =>
    cases cl with
    | some len =>
      refine ⟨by simp [fetchData, hn], ?_, ?_, by simp [fetchData, hn]⟩
      · simp only [fetchData, hn]
        rw [List.length_take]
        exact inf_le_left
      · intro h
        simp only [hn] at h
        simp only [fetchData, hn]
        exact List.take_of_length_le h
    | none =>
      refine ⟨by simp [fetchData, hn], ?_, ?_, by simp [fetchData, hn]⟩
      · simp only [fetchData, hn]
        rw [List.length_take]
        exact inf_le_left
      · intro h
        simp only [hn] at h
        simp only [fetchData, hn]
        exact List.take_of_length_le h

/-- The world of the size-cap witness. -/
def wC8 : World :=
  { krate := none, indexPath := [], dirs := [], files := [],
    url := fun _ _ => none, net := fun _ => (some 2, [5, 6]), entriesOf := fun _ => [] }

/-- Claim C8, witness: a two-byte response with an advertised length of two
is read whole into a buffer pre-sized to two. -/
theorem C8_fetch_size_cap_witness :
    (fetchData wC8 "u").2 = [5, 6] ∧
    (fetchData wC8 "u").2.length ≤ CRATE_SIZE_LIMIT ∧
    (fetchData wC8 "u").1 = 2 := by
  have h := C8_fetch_size_cap wC8 "u"
  exact ⟨h.2.2.1 (by decide), h.2.1, h.2.2.2⟩

/-- The success outcome's artifact among a run's events: a written outcome
has its write or copy event, an extracted outcome the creation of its
destination directory. -/
def artifactProduced (o : Outcome) (evs : List Ev) : Prop :=
  match o with
  | .written p => (∃ b, Ev.writeFile p b ∈ evs) ∨ ∃ src, Ev.copyFile src p ∈ evs
  | .extracted d => Ev.createDirAll (pathComps d) ∈ evs

theorem unpack_fst (v : VersionRecord) (entries : List (List PathC))
    (out : List PathC) :
    (unpack v entries out).1 =
      Ev.createDirAll out ::
        (unpackEntries (v.name ++ "-" ++ v.vers) out entries).1 := rfl

/-- A pipeline run that ends in a success has produced its artifact among
its events. -/
theorem acquire_ok_artifact {cfg : AppCfg} {w : World} {spec : PackageIdSpec}
    {evs : List Ev} {o : Outcome} (h : acquire cfg w spec = (evs, .ok o)) :
    artifactProduced o evs := by
  cases hk : w.krate with
  | none => simp [acquire, hk] at h
  | some krate =>
    cases hsel : selectVersion krate (spec.version_req.getD VersionReq.star)
        cfg.allow_yanked with
    | none => simp [acquire, hk, hsel] at h
    | some p =>
      obtain ⟨num, version⟩ := p
      cases hc : (if cfg.cache then cache_lookup w version
          else Except.error "cache disabled by flag") with
      | ok path =>
        simp only [acquire, hk, hsel, hc] at h
        simp only [useCached] at h
        by_cases hx : cfg.extract = true
        · rw [if_pos hx] at h
          cases hu2 : (unpack version (w.entriesOf ((getFile w path).getD []))
              (pathComps (outputName cfg version))).2 with
          | error e2 => rw [hu2] at h; simp at h
          | ok u2 =>
            rw [hu2] at h
            obtain ⟨hE, hR⟩ := Prod.mk.injEq .. ▸ h
            have ho : Outcome.extracted (outputName cfg version) = o := Except.ok.inj hR
            rw [← ho]
            show Ev.createDirAll (pathComps (outputName cfg version)) ∈ evs
            rw [← hE, unpack_fst]
            exact List.mem_cons_self ..
        · rw [if_neg hx] at h
          obtain ⟨hE, hR⟩ := Prod.mk.injEq .. ▸ h
          have ho : Outcome.written (outputName cfg version) = o := Except.ok.inj hR
          rw [← ho]
          refine Or.inr ⟨path, ?_⟩
          rw [← hE]
          exact List.mem_cons_self ..
      | error e =>
        simp only [acquire, hk, hsel, hc] at h
        cases hu : w.url version.name version.vers with
        | none => simp [downloadAndUse, hu] at h
        | some u =>
          simp only [downloadAndUse, hu] at h
          by_cases hsha : sha256 (fetchData w u).2 ≠ version.checksum
          · rw [if_pos hsha] at h; simp at h
          · rw [if_neg hsha] at h
            by_cases hx : cfg.extract = true
            · rw [if_pos hx] at h
              cases hu2 : (unpack version (w.entriesOf (fetchData w u).2)
                  (pathComps (outputName cfg version))).2 with
              | error e2 => rw [hu2] at h; simp at h
              | ok u2 =>
                rw [hu2] at h
                obtain ⟨hE, hR⟩ := Prod.mk.injEq .. ▸ h
                have ho : Outcome.extracted (outputName cfg version) = o :=
                  Except.ok.inj hR
                rw [← ho]
                show Ev.createDirAll (pathComps (outputName cfg version)) ∈ evs
                rw [← hE, unpack_fst]
                exact List.mem_cons_self ..
            · rw [if_neg hx] at h
              obtain ⟨hE, hR⟩ := Prod.mk.injEq .. ▸ h
              have ho : Outcome.written (outputName cfg version) = o := Except.ok.inj hR
              rw [← ho]
              refine Or.inl ⟨(fetchData w u).2, ?_⟩
              rw [← hE]
              exact List.mem_cons_self ..

/-- Claim C9: provided the multi-crate output check passes, the run exits
zero exactly when every spec's pipeline succeeded (so any failure makes the
exit non-zero); the per-spec results are each computed by the spec's own
independent pipeline, one per requested spec; and every spec that succeeds
has produced its artifact among its own events, whatever the other specs
did. -/
theorem C9_run_aggregation (cfg : AppCfg) (jobs : List (World × PackageIdSpec))
    (hout : (decide (1 < jobs.length) && cfg.output.isSome) = false) :
    (runOk cfg jobs = true ↔ ∀ r ∈ runSpecs cfg jobs, ∃ o, r.2 = .ok o) ∧
    runSpecs cfg jobs = jobs.map (fun j => acquire cfg j.1 j.2) ∧
    (∀ j ∈ jobs, ∀ evs o, acquire cfg j.1 j.2 = (evs, .ok o) →
      artifactProduced o evs) := by
  refine ⟨?_, rfl, ?_⟩
  · unfold runOk
    rw [hout]
    simp only [Bool.false_eq_true, if_false]
    rw [aggregateOk_true_iff]
    constructor
    · intro h r hr
      exact h.2 r.2 (List.mem_map.mpr ⟨r, hr, rfl⟩)
    · intro h
      refine ⟨rfl, ?_⟩
      intro r2 hr2
      obtain ⟨r, hr, hrr⟩ := List.mem_map.mp hr2
      exact hrr ▸ h r hr
  · intro j hj evs o h
    exact acquire_ok_artifact h

/-- The configuration of the aggregation witness: plain write, no explicit
output, yanked disallowed, cache disabled. -/
def cfgC9 : AppCfg :=
  { extract := false, output := none, allow_yanked := false, cache := false }

/-- The sole index record of the aggregation witness world: its checksum is
the digest of the bytes the world serves. -/
def recC9 : VersionRecord :=
  { name := "foo", vers := "1.0.0", checksum := sha256 [7], yanked := false }

/-- A world whose crate is present, whose cache is bypassed, and whose
response bytes hash to the recorded checksum. -/
def wOkC9 : World :=
  { krate := some [recC9],
    indexPath := [], dirs := [], files := [],
    url := fun _ _ => some "u", net := fun _ => (some 1, [7]),
    entriesOf := fun _ => [] }

/-- A world whose crate is absent from the index. -/
def wMissingC9 : World :=
  { krate := none, indexPath := [], dirs := [], files := [],
    url := fun _ _ => none, net := fun _ => (none, []), entriesOf := fun _ => [] }

set_option maxRecDepth 1000000 in
/-- Claim C9, witness: a run over a succeeding spec and a not-found spec
exits non-zero, the failing sibling leaving the succeeding spec's written
artifact in place; the same run without the failing spec exits zero. -/
theorem C9_run_aggregation_witness :
    runOk cfgC9 [(wOkC9, ⟨⟨"foo"⟩, none⟩), (wMissingC9, ⟨⟨"bar"⟩, none⟩)] = false ∧
    runOk cfgC9 [(wOkC9, ⟨⟨"foo"⟩, none⟩)] = true ∧
    artifactProduced (Outcome.written "foo-1.0.0.crate")
      (acquire cfgC9 wOkC9 ⟨⟨"foo"⟩, none⟩).1 := by
  have h2 := C9_run_aggregation cfgC9
    [(wOkC9, ⟨⟨"foo"⟩, none⟩), (wMissingC9, ⟨⟨"bar"⟩, none⟩)] (by decide)
  have h1 := C9_run_aggregation cfgC9 [(wOkC9, ⟨⟨"foo"⟩, none⟩)] (by decide)
  have hok : acquire cfgC9 wOkC9 ⟨⟨"foo"⟩, none⟩ =
      ((acquire cfgC9 wOkC9 ⟨⟨"foo"⟩, none⟩).1,
        .ok (Outcome.written "foo-1.0.0.crate")) := by
    have : acquire cfgC9 wOkC9 ⟨⟨"foo"⟩, none⟩ =
        ([Ev.writeFile "foo-1.0.0.crate" [7]],
          .ok (Outcome.written "foo-1.0.0.crate")) := by decide
    rw [this]
  refine ⟨?_, ?_, ?_⟩
  · cases hr : runOk cfgC9 [(wOkC9, ⟨⟨"foo"⟩, none⟩), (wMissingC9, ⟨⟨"bar"⟩, none⟩)] with
    | false => rfl
    | true =>
      exfalso
      have hall := h2.1.mp hr (acquire cfgC9 wMissingC9 ⟨⟨"bar"⟩, none⟩)
        (by rw [h2.2.1]
            exact List.mem_map.mpr ⟨(wMissingC9, ⟨⟨"bar"⟩, none⟩),
              List.mem_cons_of_mem _ (List.mem_cons_self ..), rfl⟩)
      obtain ⟨o, ho⟩ := hall
      rw [show (acquire cfgC9 wMissingC9 ⟨⟨"bar"⟩, none⟩).2 =
          Except.error Failure.loggedNotFound from rfl] at ho
      exact absurd ho (by simp)
  · refine h1.1.mpr ?_
    intro r hr
    rw [h1.2.1] at hr
    obtain ⟨j, hj, hjr⟩ := List.mem_map.mp hr
    have hj1 : j = (wOkC9, (⟨⟨"foo"⟩, none⟩ : PackageIdSpec)) := by
      rcases List.mem_cons.mp hj with h' | h'
      · exact h'
      · exact absurd h' (by simp)
    subst hj1
    rw [← hjr]
    exact ⟨Outcome.written "foo-1.0.0.crate", congrArg Prod.snd hok⟩
  · exact h2.2.2 (wOkC9, ⟨⟨"foo"⟩, none⟩) (List.mem_cons_self ..)
      (acquire cfgC9 wOkC9 ⟨⟨"foo"⟩, none⟩).1 (Outcome.written "foo-1.0.0.crate") hok
